import Mathlib

/-!
Verification of the Nodex compliance-aware workflow graph engine.

This file gives a shallow embedding of the engine's core routines —
the React-Flow edit layer (node deletion), the layout solver
(`findFreePosition`, `arrangeNodesIntelligently`), the n8n schema
translator (`N8nWorkflowConverter`), and the invariant enforcer — and
proves or refutes the specification's claims about them.

Coordinates are modelled as rationals (JavaScript numbers are exact on
the integer ranges used here); `Math.cos` / `Math.sin` / `Math.random`
and timestamps are treated as oracle parameters.
-/

namespace Nodex

/-! ## String helpers: JavaScript `toLowerCase` and `includes` -/

/-- Character-list prefix test, mirroring JavaScript string comparison. -/
def chPre : List Char → List Char → Bool
  | [], _ => true
  | _ :: _, [] => false
  | a :: p, b :: s => a == b && chPre p s

/-- Character-list substring test. -/
def chSub (p : List Char) : List Char → Bool
  | [] => p.isEmpty
  | b :: s => chPre p (b :: s) || chSub p s

/-- JavaScript `s.includes(pat)`. -/
def strIncludes (s pat : String) : Bool := chSub pat.data s.data

/-- JavaScript `s.toLowerCase()` (ASCII, as used by the labels here). -/
def lowerStr (s : String) : String := ⟨s.data.map Char.toLower⟩

/-- JavaScript `s.toLowerCase().includes(pat)`. -/
def includesLC (s pat : String) : Bool := strIncludes (lowerStr s) pat

/-! ## Data model: React-Flow nodes and edges as the edit layer sees them -/

/-- A React-Flow node as used by the canvas code: `id`, `data.label`,
`data.nodeType`, `data.description`, `data.locked`,
`data.compliance_reason`, and `position`. -/
structure RFNode (α : Type) where
  id : String
  label : String
  nodeType : String
  description : Option String
  locked : Bool
  compliance_reason : Option String
  x : α
  y : α
deriving DecidableEq

/-- A React-Flow edge: `id`, `source`, `target`. -/
structure RFEdge where
  id : String
  source : String
  target : String
deriving DecidableEq

/-! ## Edit layer: `deleteSelectedNodes` (part_007) and the context-menu
`handleDelete` / `deleteNode` (part_008) -/

/-- Result of a `deleteSelectedNodes` call: the updated node / edge /
selection state plus the chat messages emitted via `addChatMessage`. -/
structure DeleteResult (α : Type) where
  nodes : List (RFNode α)
  edges : List RFEdge
  selectedNodes : List String
  messages : List String
deriving DecidableEq

/-- `deleteSelectedNodes` from the canvas component: rejects when nothing
is selected, rejects (leaving the graph unchanged) when any selected node
is locked, otherwise removes the selected nodes and every edge touching
them. -/
def deleteSelectedNodes {α : Type} (nodes : List (RFNode α)) (edges : List RFEdge)
    (selectedNodes : List String) : DeleteResult α :=
  if selectedNodes.length == 0 then
    ⟨nodes, edges, selectedNodes, ["No nodes selected for deletion"]⟩
  else
    let selectedNodeData := nodes.filter (fun n => selectedNodes.contains n.id)
    let lockedNodes := selectedNodeData.filter (fun n => n.locked)
    if lockedNodes.length > 0 then
      ⟨nodes, edges, selectedNodes,
        ["⚠️ Cannot delete " ++ toString lockedNodes.length ++
          " compliance node(s) - they are locked"]⟩
    else
      let newNodes := nodes.filter (fun n => !(selectedNodes.contains n.id))
      let newEdges := edges.filter (fun e =>
        !(selectedNodes.contains e.source) && !(selectedNodes.contains e.target))
      ⟨newNodes, newEdges, [],
        ["Deleted " ++ toString selectedNodes.length ++ " node(s) and connected edges"]⟩

/-- `deleteNode` from the flow-canvas component: removes the node with the
given id and filters out every edge whose source or target is that id. -/
def deleteNode {α : Type} (nodes : List (RFNode α)) (edges : List RFEdge) (nodeId : String) :
    List (RFNode α) × List RFEdge :=
  (nodes.filter (fun node => !(node.id == nodeId)),
   edges.filter (fun edge => !(edge.source == nodeId) && !(edge.target == nodeId)))

/-- `handleDelete` from the context menu: deletes the node only when one is
present and not locked; a locked node is silently left alone. -/
def handleDelete {α : Type} (nodes : List (RFNode α)) (edges : List RFEdge)
    (contextMenuNode : Option (RFNode α)) : List (RFNode α) × List RFEdge :=
  match contextMenuNode with
  | some node => if !node.locked then deleteNode nodes edges node.id else (nodes, edges)
  | none => (nodes, edges)

/-! ## Layout solver (part_007): `findFreePosition` and
`arrangeNodesIntelligently`.  Node footprint 150×80, `minSpacing` 10. -/

/-- The specification's separation condition, in the claim's own gloss:
the edge-to-edge gap between the two 150×80 rectangles is at least
`minSpacing = 10` in at least one axis (equivalently, the rectangles
expanded by the spacing are disjoint). -/
def separatedAxisGap {α : Type} [LinearOrderedRing α] (ax ay bx b2y : α) : Prop :=
  ax + 150 + 10 ≤ bx ∨ bx + 150 + 10 ≤ ax ∨ ay + 80 + 10 ≤ b2y ∨ b2y + 80 + 10 ≤ ay

instance {α : Type} [LinearOrderedRing α] (ax ay bx b2y : α) :
    Decidable (separatedAxisGap ax ay bx b2y) := by
  unfold separatedAxisGap; infer_instance

/-- The overlap test from `findFreePosition.isPositionFree`: the candidate
rectangle at `(testX, testY)` overlaps, or is closer than `minSpacing` to,
the existing rectangle at `(ex, ey)`. -/
def overlapsB {α : Type} [LinearOrderedRing α] (testX testY ex ey : α) : Bool :=
  let nodeWidth : α := 150
  let nodeHeight : α := 80
  let minSpacing : α := 10
  let rightEdgeNew := testX + nodeWidth
  let bottomEdgeNew := testY + nodeHeight
  let rightEdgeExisting := ex + nodeWidth
  let bottomEdgeExisting := ey + nodeHeight
  let horizontalOverlap :=
    !(decide (rightEdgeNew + minSpacing ≤ ex) || decide (testX ≥ rightEdgeExisting + minSpacing))
  let verticalOverlap :=
    !(decide (bottomEdgeNew + minSpacing ≤ ey) || decide (testY ≥ bottomEdgeExisting + minSpacing))
  horizontalOverlap && verticalOverlap

/-- `isPositionFree` from `findFreePosition`: the candidate is free iff it
overlaps no already-placed (`allPositions`) or pending position. -/
def isPositionFree {α : Type} [LinearOrderedRing α]
    (placed pending : List (α × α)) (testX testY : α) : Bool :=
  !((placed ++ pending).any (fun pos => overlapsB testX testY pos.1 pos.2))

/-- The grid-scan candidates of `findFreePosition`: rows 0–9 top-to-bottom,
columns 0–7 left-to-right, step 180 = width + spacing + 20 horizontally and
110 = height + spacing + 20 vertically, starting at (50, 50). -/
def gridCandidates (α : Type) [LinearOrderedRing α] : List (α × α) :=
  (List.range 10).flatMap (fun row =>
    (List.range 8).map (fun col =>
      ((50 : α) + col * 180, (50 : α) + row * 110)))

/-- The spiral-scan candidates of `findFreePosition`: radius 50 to 400 in
steps of 50, angle 0° to 315° in steps of 45°, centred on the preferred
coordinate, clamped to coordinates ≥ 50.  `cosF`/`sinF` stand for
`Math.cos`/`Math.sin` applied to the angle in degrees. -/
def spiralCandidates {α : Type} [LinearOrderedRing α]
    (cosF sinF : Nat → α) (cx cy : α) : List (α × α) :=
  (List.range 8).flatMap (fun k =>
    (List.range 8).map (fun j =>
      let radius : α := 50 * ((k : α) + 1)
      let angle := 45 * j
      (max 50 (cx + radius * cosF angle), max 50 (cy + radius * sinF angle))))

/-- The unchecked randomized last-resort position of `findFreePosition`;
`rnd1`, `rnd2` stand for the two `Math.random()` draws. -/
def fallbackPos {α : Type} [LinearOrderedRing α]
    (rnd1 rnd2 : α) (preferredX preferredY : Option α) : α × α :=
  (max 50 (preferredX.getD 100 + rnd1 * 200),
   max 50 (preferredY.getD 100 + rnd2 * 200))

/-- `findFreePosition` from the canvas component: preferred coordinate
first, then the grid scan, then the spiral scan, then the randomized
fallback. -/
def findFreePosition {α : Type} [LinearOrderedRing α] (cosF sinF : Nat → α) (rnd1 rnd2 : α)
    (preferredX preferredY : Option α) (placed pending : List (α × α)) : α × α :=
  let x := preferredX.getD 100
  let y := preferredY.getD 100
  if isPositionFree placed pending x y then (x, y)
  else
    match (gridCandidates α).find? (fun c => isPositionFree placed pending c.1 c.2) with
    | some c => c
    | none =>
      match (spiralCandidates cosF sinF (preferredX.getD 300)
          (preferredY.getD 200)).find? (fun c => isPositionFree placed pending c.1 c.2) with
      | some c => c
      | none => fallbackPos rnd1 rnd2 preferredX preferredY

/-- `Math.ceil(Math.sqrt n)` on a natural number. -/
def ceilSqrt (n : Nat) : Nat :=
  if Nat.sqrt n * Nat.sqrt n == n then Nat.sqrt n else Nat.sqrt n + 1

/-- `Math.ceil (a / b)` on natural numbers. -/
def ceilDiv (a b : Nat) : Nat := (a + b - 1) / b

/-- `arrangeNodesIntelligently` from the canvas component: bands nodes by
type (triggers, then actions/conditions, then others, then outputs), puts
locked compliance nodes in a separate column on the right, and returns the
nodes with their positions rewritten. -/
def arrangeNodesIntelligently {α : Type} [LinearOrderedRing α]
    (newNodes : List (RFNode α)) : List (RFNode α) :=
  let isTrigger := fun (n : RFNode α) => n.nodeType == "trigger" || n.nodeType == "manual"
  let isAction := fun (n : RFNode α) => n.nodeType == "action" || n.nodeType == "condition"
  let isOutput := fun (n : RFNode α) => n.nodeType == "database" || n.nodeType == "notification"
  let triggers := newNodes.filter isTrigger
  let actions := newNodes.filter isAction
  let outputs := newNodes.filter isOutput
  let compliance := newNodes.filter (fun n => n.locked)
  let others := newNodes.filter (fun n =>
    !(isTrigger n) && !(isAction n) && !(isOutput n) && !n.locked)
  let baseX : α := 50
  let horizontalSpacing : α := 150 + 10 + 20
  let verticalSpacing : α := 80 + 10 + 20
  let sectionSpacing : α := 40
  let y0 : α := 50
  let triggersAssign := triggers.enum.map (fun p =>
    (p.2.id, (baseX + (p.1 : α) * horizontalSpacing, y0)))
  let y1 := if triggers.length > 0 then y0 + verticalSpacing + sectionSpacing else y0
  let actionsPerRow := min 4 (max 2 (ceilSqrt actions.length))
  let actionsAssign := actions.enum.map (fun p =>
    (p.2.id, (baseX + ((p.1 % actionsPerRow : Nat) : α) * horizontalSpacing,
              y1 + ((p.1 / actionsPerRow : Nat) : α) * verticalSpacing)))
  let y2 := if actions.length > 0 then
    y1 + (ceilDiv actions.length actionsPerRow : α) * verticalSpacing + sectionSpacing
  else y1
  let othersPerRow := min 3 (max 2 (ceilSqrt others.length))
  let othersAssign := others.enum.map (fun p =>
    (p.2.id, (baseX + ((p.1 % othersPerRow : Nat) : α) * horizontalSpacing,
              y2 + ((p.1 / othersPerRow : Nat) : α) * verticalSpacing)))
  let y3 := if others.length > 0 then
    y2 + (ceilDiv others.length othersPerRow : α) * verticalSpacing + sectionSpacing
  else y2
  let outputsAssign := outputs.enum.map (fun p =>
    (p.2.id, (baseX + (p.1 : α) * horizontalSpacing, y3)))
  let complianceStartX :=
    baseX + (max actionsPerRow (max othersPerRow outputs.length) : α) * horizontalSpacing +
      sectionSpacing
  let complianceAssign := compliance.enum.map (fun p =>
    (p.2.id, (complianceStartX, y0 + (p.1 : α) * verticalSpacing)))
  let assigns := triggersAssign ++ actionsAssign ++ othersAssign ++
    outputsAssign ++ complianceAssign
  newNodes.map (fun n =>
    match assigns.reverse.find? (fun a => a.1 == n.id) with
    | some a => { n with x := a.2.1, y := a.2.2 }
    | none => n)

/-- Pairwise separation check over a node list, with the claim's
separation condition. -/
def allPairsSeparated {α : Type} [LinearOrderedRing α] : List (RFNode α) → Bool
  | [] => true
  | n :: rest =>
    rest.all (fun m => decide (separatedAxisGap n.x n.y m.x m.y)) && allPairsSeparated rest

/-! ## Claims C1, C3, C10: layout no-overlap, locked-node deletion,
dangling-edge prevention -/

/-- The C1 failing input: three trigger nodes and one locked compliance
node, as fed to full rearrangement.  All coordinates involved are
integers, so evaluating at `Int` agrees exactly with the JavaScript
number arithmetic. -/
def exC1nodes : List (RFNode Int) :=
  [⟨"t1", "Webhook A", "trigger", none, false, none, 0, 0⟩,
   ⟨"t2", "Webhook B", "trigger", none, false, none, 0, 0⟩,
   ⟨"t3", "Webhook C", "trigger", none, false, none, 0, 0⟩,
   ⟨"c1", "Fraud Risk Assessment", "validation", none, true,
     some "Required for financial compliance", 0, 0⟩]

/-- C1: the claim states that both layout modes guarantee that every pair
of placed 150×80 rectangles keeps an edge-to-edge gap of at least
`minSpacing = 10` in at least one axis.  The code violates this: with
three trigger nodes and one locked compliance node,
`arrangeNodesIntelligently` places the third trigger at (410, 50) and the
compliance node at (450, 50) — the compliance column start ignores the
width of the trigger band — so the two rectangles overlap outright,
contradicting the specification's no-overlap guarantee and the code's own
"ensure no overlaps" comment. -/
theorem arrangeNodes_violates_noOverlap :
    ((arrangeNodesIntelligently exC1nodes).map (fun n => (n.id, n.x, n.y)) =
      [("t1", 50, 50), ("t2", 230, 50), ("t3", 410, 50), ("c1", 450, 50)]) ∧
    allPairsSeparated (arrangeNodesIntelligently exC1nodes) = false := by
  constructor
  · decide
  · decide

/-- Helper: a successful `List.contains` forces the list to be nonempty. -/
theorem contains_ne_nil {l : List String} {a : String} (h : l.contains a = true) :
    l ≠ [] := by
  intro hnil; subst hnil; simp at h

/-- Helper: an accepted deletion takes the final branch of
`deleteSelectedNodes`. -/
theorem deleteSelectedNodes_accepted {α : Type} (nodes : List (RFNode α))
    (edges : List RFEdge) (sel : List String) (hne : sel ≠ [])
    (hnl : ∀ n ∈ nodes, sel.contains n.id = true → n.locked = false) :
    deleteSelectedNodes nodes edges sel =
      ⟨nodes.filter (fun n => !(sel.contains n.id)),
       edges.filter (fun e => !(sel.contains e.source) && !(sel.contains e.target)),
       [], ["Deleted " ++ toString sel.length ++ " node(s) and connected edges"]⟩ := by
  have h0 : (sel.length == 0) = false := by
    cases sel with
    | nil => exact absurd rfl hne
    | cons a l => rfl
  have h1 : ((nodes.filter (fun n => sel.contains n.id)).filter (fun n => n.locked)) = [] := by
    rw [List.filter_eq_nil_iff]
    intro n hn
    rcases List.mem_filter.mp hn with ⟨hmem, hsel⟩
    simp [hnl n hmem hsel]
  unfold deleteSelectedNodes
  rw [h0]
  simp only [Bool.false_eq_true, if_false, h1]
  rfl

/-- Helper: a rejected deletion (some selected node is locked) leaves the
state unchanged and emits the generic locked-count message. -/
theorem deleteSelectedNodes_rejected {α : Type} (nodes : List (RFNode α))
    (edges : List RFEdge) (sel : List String)
    (h : ∃ n ∈ nodes, sel.contains n.id = true ∧ n.locked = true) :
    deleteSelectedNodes nodes edges sel =
      ⟨nodes, edges, sel,
        ["⚠️ Cannot delete " ++
          toString ((nodes.filter (fun n => sel.contains n.id)).filter
            (fun n => n.locked)).length ++ " compliance node(s) - they are locked"]⟩ := by
  obtain ⟨n, hmem, hsel, hlock⟩ := h
  have h0 : (sel.length == 0) = false := by
    cases sel with
    | nil => simp at hsel
    | cons a l => rfl
  have h1 : n ∈ (nodes.filter (fun n => sel.contains n.id)).filter (fun n => n.locked) := by
    refine List.mem_filter.mpr ⟨List.mem_filter.mpr ⟨hmem, hsel⟩, hlock⟩
  have h2 : (0 < ((nodes.filter (fun n => sel.contains n.id)).filter
      (fun n => n.locked)).length) := List.length_pos.mpr (List.ne_nil_of_mem h1)
  unfold deleteSelectedNodes
  rw [h0]
  simp only [Bool.false_eq_true, if_false, if_pos h2]

/-- The C3 counterexample state: one locked node carrying
`complianceReason = "Required for financial compliance"`, selected for
deletion. -/
def exC3node : RFNode Int :=
  ⟨"n1", "Fraud Risk Assessment", "validation", none, true,
    some "Required for financial compliance", 100, 100⟩

/-- C3, counterexample: the claim states that a rejected deletion of a
`locked = true` node carries an explanation string equal to that node's
`complianceReason`.  The code does reject (node and edge sets unchanged)
but emits only the generic message
"⚠️ Cannot delete 1 compliance node(s) - they are locked", which differs
from the node's `complianceReason`; the context-menu path rejects with no
message at all. -/
theorem deleteLocked_message_not_complianceReason :
    (deleteSelectedNodes [exC3node] [] ["n1"]).nodes = [exC3node] ∧
    (deleteSelectedNodes [exC3node] [] ["n1"]).edges = [] ∧
    (deleteSelectedNodes [exC3node] [] ["n1"]).messages =
      ["⚠️ Cannot delete 1 compliance node(s) - they are locked"] ∧
    exC3node.compliance_reason = some "Required for financial compliance" ∧
    (∀ m ∈ (deleteSelectedNodes [exC3node] [] ["n1"]).messages,
      m ≠ "Required for financial compliance") ∧
    handleDelete [exC3node] [] (some exC3node) = ([exC3node], []) := by
  refine ⟨by decide, by decide, by decide, rfl, ?_, by decide⟩
  intro m hm
  simp only [show (deleteSelectedNodes [exC3node] [] ["n1"]).messages =
    ["⚠️ Cannot delete 1 compliance node(s) - they are locked"] from by decide,
    List.mem_singleton] at hm
  subst hm
  decide

/-- C3, amended: a deletion request through the edit layer that targets a
`locked = true` node is rejected — the node and edge sets are unchanged —
but the rejection carries only the generic locked-count chat message (not
the node's `complianceReason`), and the context-menu deletion path rejects
silently. -/
theorem deleteLocked_rejected_generic_message {α : Type}
    (nodes : List (RFNode α)) (edges : List RFEdge) (sel : List String)
    (h : ∃ n ∈ nodes, sel.contains n.id = true ∧ n.locked = true) :
    (deleteSelectedNodes nodes edges sel).nodes = nodes ∧
    (deleteSelectedNodes nodes edges sel).edges = edges ∧
    (deleteSelectedNodes nodes edges sel).messages =
      ["⚠️ Cannot delete " ++
        toString ((nodes.filter (fun n => sel.contains n.id)).filter
          (fun n => n.locked)).length ++ " compliance node(s) - they are locked"] ∧
    (∀ m : RFNode α, m.locked = true →
      handleDelete nodes edges (some m) = (nodes, edges)) := by
  rw [deleteSelectedNodes_rejected nodes edges sel h]
  refine ⟨rfl, rfl, rfl, ?_⟩
  intro m hm
  simp [handleDelete, hm]

/-- Witness for `deleteLocked_rejected_generic_message` at the concrete
locked-node state. -/
theorem deleteLocked_rejected_generic_message_witness :
    (deleteSelectedNodes [exC3node] [] ["n1"]).nodes = [exC3node] ∧
    (deleteSelectedNodes [exC3node] [] ["n1"]).edges = [] := by
  have h := deleteLocked_rejected_generic_message [exC3node] [] ["n1"]
    ⟨exC3node, by decide, by decide, by decide⟩
  exact ⟨h.1, h.2.1⟩

/-- C10: an accepted deletion (a nonempty selection containing no locked
node) removes the selected nodes together with every edge whose source or
target is selected; if every edge of the input referenced existing nodes,
every remaining edge still does — no dangling references are created. -/
theorem deleteSelectedNodes_no_dangling {α : Type}
    (nodes : List (RFNode α)) (edges : List RFEdge) (sel : List String)
    (hws : ∀ e ∈ edges, (∃ n ∈ nodes, n.id = e.source) ∧ (∃ n ∈ nodes, n.id = e.target))
    (hne : sel ≠ [])
    (hnl : ∀ n ∈ nodes, sel.contains n.id = true → n.locked = false) :
    (deleteSelectedNodes nodes edges sel).nodes =
      nodes.filter (fun n => !(sel.contains n.id)) ∧
    (deleteSelectedNodes nodes edges sel).edges =
      edges.filter (fun e => !(sel.contains e.source) && !(sel.contains e.target)) ∧
    ∀ e ∈ (deleteSelectedNodes nodes edges sel).edges,
      (∃ n ∈ (deleteSelectedNodes nodes edges sel).nodes, n.id = e.source) ∧
      (∃ n ∈ (deleteSelectedNodes nodes edges sel).nodes, n.id = e.target) := by
  rw [deleteSelectedNodes_accepted nodes edges sel hne hnl]
  refine ⟨rfl, rfl, ?_⟩
  intro e he
  rcases List.mem_filter.mp he with ⟨hmem, hcond⟩
  rcases (Bool.and_eq_true _ _).mp hcond with ⟨hs, ht⟩
  rcases hws e hmem with ⟨⟨ns, hns, hid⟩, ⟨nt, hnt, hidt⟩⟩
  constructor
  · exact ⟨ns, List.mem_filter.mpr ⟨hns, by rw [hid]; exact hs⟩, hid⟩
  · exact ⟨nt, List.mem_filter.mpr ⟨hnt, by rw [hidt]; exact ht⟩, hidt⟩

/-- Witness for `deleteSelectedNodes_no_dangling`: deleting the middle
node of a three-node chain keeps both remaining edges' endpoints (none
remain, since both edges touch the deleted node). -/
theorem deleteSelectedNodes_no_dangling_witness :
    (deleteSelectedNodes
        [⟨"a", "A", "trigger", none, false, none, (0 : Int), 0⟩,
         ⟨"b", "B", "action", none, false, none, 200, 0⟩]
        [⟨"e1", "a", "b"⟩] ["b"]).edges = [] := by
  have h := deleteSelectedNodes_no_dangling
    [⟨"a", "A", "trigger", none, false, none, (0 : Int), 0⟩,
     ⟨"b", "B", "action", none, false, none, 200, 0⟩]
    [⟨"e1", "a", "b"⟩] ["b"]
    (by intro e he; constructor
        · exact ⟨⟨"a", "A", "trigger", none, false, none, (0 : Int), 0⟩, by
            simp only [List.mem_singleton] at he; subst he; decide, by
            simp only [List.mem_singleton] at he; subst he; rfl⟩
        · exact ⟨⟨"b", "B", "action", none, false, none, 200, 0⟩, by
            simp only [List.mem_singleton] at he; subst he; decide, by
            simp only [List.mem_singleton] at he; subst he; rfl⟩)
    (by decide)
    (by decide)
  rw [h.2.1]
  decide

/-! ## Claim C5: incremental-placement search order and acceptance
criterion -/

/-- Helper: the code's overlap test fails exactly when the claim's
expanded-rectangle separation condition holds. -/
theorem overlapsB_eq_false_iff {α : Type} [LinearOrderedRing α] (tx ty ex ey : α) :
    overlapsB tx ty ex ey = false ↔ separatedAxisGap tx ty ex ey := by
  simp only [overlapsB, separatedAxisGap, Bool.and_eq_false_iff, Bool.not_eq_false',
    Bool.or_eq_true, decide_eq_true_eq, ge_iff_le]
  tauto

/-- Helper: `isPositionFree` accepts exactly the candidates separated from
every placed and pending rectangle. -/
theorem isPositionFree_iff {α : Type} [LinearOrderedRing α]
    (placed pending : List (α × α)) (tx ty : α) :
    isPositionFree placed pending tx ty = true ↔
      ∀ q ∈ placed ++ pending, separatedAxisGap tx ty q.1 q.2 := by
  simp only [isPositionFree, Bool.not_eq_true', List.any_eq_false]
  constructor
  · intro h q hq
    exact (overlapsB_eq_false_iff tx ty q.1 q.2).mp
      (Bool.not_eq_true _ ▸ Bool.eq_false_iff.mpr (h q hq))
  · intro h q hq
    exact fun hc => absurd hc
      (by rw [(overlapsB_eq_false_iff tx ty q.1 q.2).mpr (h q hq)]; simp)

/-- C5: `findFreePosition` searches exactly the preferred coordinate, then
the left-to-right top-to-bottom grid scan (step = footprint + minSpacing +
margin), then the 45°-step spiral of bounded radius, returning the first
candidate accepted by `isPositionFree`, and falls back to the randomized
offset when all candidates are rejected; and a candidate is accepted iff
its rectangle expanded by `minSpacing` intersects no placed or pending
node's expanded rectangle (gap ≥ `minSpacing` in at least one axis against
every such node). -/
theorem findFreePosition_search_order {α : Type} [LinearOrderedRing α]
    (cosF sinF : Nat → α) (rnd1 rnd2 : α) (preferredX preferredY : Option α)
    (placed pending : List (α × α)) :
    (findFreePosition cosF sinF rnd1 rnd2 preferredX preferredY placed pending =
      (((preferredX.getD 100, preferredY.getD 100) ::
          (gridCandidates α ++
            spiralCandidates cosF sinF (preferredX.getD 300) (preferredY.getD 200))).find?
          (fun c => isPositionFree placed pending c.1 c.2)).getD
        (fallbackPos rnd1 rnd2 preferredX preferredY)) ∧
    (∀ testX testY, isPositionFree placed pending testX testY = true ↔
      ∀ q ∈ placed ++ pending, separatedAxisGap testX testY q.1 q.2) := by
  constructor
  · cases h0 : isPositionFree placed pending (preferredX.getD 100) (preferredY.getD 100) with
    | true => simp [findFreePosition, h0, List.find?_cons]
    | false =>
      cases h1 : (gridCandidates α).find?
          (fun c => isPositionFree placed pending c.1 c.2) with
      | some c =>
        simp [findFreePosition, h0, h1, List.find?_cons, List.find?_append]
      | none =>
        cases h2 : (spiralCandidates cosF sinF (preferredX.getD 300)
            (preferredY.getD 200)).find?
            (fun c => isPositionFree placed pending c.1 c.2) with
        | some c =>
          simp [findFreePosition, h0, h1, h2, List.find?_cons, List.find?_append]
        | none =>
          simp [findFreePosition, h0, h1, h2, List.find?_cons, List.find?_append]
  · intro testX testY
    exact isPositionFree_iff placed pending testX testY

/-! ## Schema translator (part_004): `N8nWorkflowConverter`.

JSON parameter blocks are modelled by `JVal`; JavaScript object literals
become ordered association lists with JavaScript assignment semantics
(`setKey`).  `Math.random().toString(36).substr(2, 9)` (webhook ids) and
`new Date()` timestamps are oracle parameters. -/

/-- A JSON-like value, for n8n parameter blocks and deployment
metadata. -/
inductive JVal where
  | s (v : String)
  | n (v : ℚ)
  | b (v : Bool)
  | obj (fields : List (String × JVal))
  | arr (items : List JVal)

/-- JavaScript object-key lookup on an ordered association list. -/
def lookupKey {β : Type} : List (String × β) → String → Option β
  | [], _ => none
  | (k1, v) :: rest, k => if k1 == k then some v else lookupKey rest k

/-- JavaScript object assignment `m[k] = v`: overwrite in place, else
append. -/
def setKey {β : Type} : List (String × β) → String → β → List (String × β)
  | [], k, v => [(k, v)]
  | (k1, v1) :: rest, k, v =>
    if k1 == k then (k1, v) :: rest else (k1, v1) :: setKey rest k v

/-- JavaScript spread-merge `{...a, ...b}` (later keys override in
place). -/
def jsSpread (a b : List (String × JVal)) : List (String × JVal) :=
  b.foldl (fun m kv => setKey m kv.1 kv.2) a

/-- JavaScript `s || d` on a (possibly empty) string. -/
def jsOrStr (s d : String) : String := if s == "" then d else s

/-- JavaScript template interpolation of a possibly-`undefined` value. -/
def jsTpl (o : Option String) : String := o.getD "undefined"

/-- `getN8nNodeType`: resolves the external node type from `nodeType` and
label keywords, via the `N8N_NODE_MAPPINGS` table. -/
def getN8nNodeType {α : Type} (node : RFNode α) : String :=
  if node.nodeType == "trigger" then
    if includesLC node.label "webhook" then "n8n-nodes-base.webhook"
    else if includesLC node.label "schedule" then "n8n-nodes-base.cron"
    else "n8n-nodes-base.manualTrigger"
  else if node.nodeType == "action" then
    let label := lowerStr node.label
    if strIncludes label "llm" || strIncludes label "ai" || strIncludes label "gpt" then
      "n8n-nodes-base.openAi"
    else if strIncludes label "email" then "n8n-nodes-base.emailSend"
    else if strIncludes label "database" || strIncludes label "db" then
      "n8n-nodes-base.postgres"
    else if strIncludes label "http" || strIncludes label "api" then
      "n8n-nodes-base.httpRequest"
    else "n8n-nodes-base.code"
  else if node.nodeType == "condition" then "n8n-nodes-base.if"
  else if node.nodeType == "notification" then "n8n-nodes-base.slack"
  else "n8n-nodes-base.function"

/-- `getTriggerParameters`: webhook, schedule or manual parameter
blocks. -/
def getTriggerParameters {α : Type} (node : RFNode α) : List (String × JVal) :=
  let label := lowerStr node.label
  if strIncludes label "webhook" then
    [("httpMethod", .s "POST"),
     ("path", .s ("nodex-" ++ node.id)),
     ("responseMode", .s "onReceived")]
  else if strIncludes label "schedule" then
    [("rule", .obj [("interval", .arr [.obj
      [("field", .s "cronExpression"),
       ("cronExpression", .s "0 9 * * *")]])])]
  else []

/-- `getActionParameters`: llm / email / database / http templates with a
generic code-node default. -/
def getActionParameters {α : Type} (node : RFNode α) : List (String × JVal) :=
  let label := lowerStr node.label
  let description := node.description.getD ""
  if strIncludes label "llm" || strIncludes label "ai" || strIncludes label "gpt" then
    [("resource", .s "chat"), ("operation", .s "create"), ("model", .s "gpt-4"),
     ("messages", .obj [("values", .arr [.obj
       [("role", .s "user"),
        ("content", .s ("=" ++
          jsOrStr description "Process the input data: \x7b\x7b $json \x7d\x7d"))]])]),
     ("options", .obj [("temperature", .n 0.7), ("maxTokens", .n 1000)])]
  else if strIncludes label "email" then
    [("fromEmail", .s "=\x7b\x7b$node[\"Trigger\"].json[\"email\"] || \"noreply@example.com\"\x7d\x7d"),
     ("toEmail", .s "=\x7b\x7b$node[\"Trigger\"].json[\"recipient\"] || \"user@example.com\"\x7d\x7d"),
     ("subject", .s ("=" ++ label)),
     ("message", .s ("=" ++ jsOrStr description "Automated message from Nodex workflow")),
     ("format", .s "html")]
  else if strIncludes label "database" || strIncludes label "db" then
    [("operation", .s "insert"), ("schema", .s "public"),
     ("table", .s "workflow_data"), ("columns", .s "data, timestamp"),
     ("values", .s "=\x7b\x7b$json\x7d\x7d, \x7b\x7bnew Date().toISOString()\x7d\x7d")]
  else if strIncludes label "http" || strIncludes label "api" then
    [("method", .s "POST"), ("url", .s "https://api.example.com/webhook"),
     ("sendBody", .b true), ("bodyContentType", .s "json"),
     ("jsonBody", .s "=\x7b\x7b$json\x7d\x7d"), ("options", .obj [])]
  else
    [("functionCode", .s ("// " ++ label ++ "\n// " ++ description ++
      "\nreturn items.map(item => \x7b\n  // Process item here\n  return item.json;\n\x7d);"))]

/-- `getConditionParameters`: the fixed boolean-comparison template. -/
def getConditionParameters {α : Type} (_node : RFNode α) : List (String × JVal) :=
  [("conditions", .obj [("boolean", .arr [.obj
    [("value1", .s "=\x7b\x7b$json.status\x7d\x7d"),
     ("operation", .s "equal"),
     ("value2", .s "success")]])])]

/-- `getValidationParameters`: the fixed field-presence-check function
template. -/
def getValidationParameters {α : Type} (node : RFNode α) : List (String × JVal) :=
  [("functionCode", .s ("// Validation: " ++ node.label ++ "\n// " ++
    jsTpl node.description ++
    "\n\nconst errors = [];\n\nfor (const item of items) \x7b\n  const data = item.json;\n  \n  // Add validation logic here\n  if (!data.email) \x7b\n    errors.push(\x27Email is required\x27);\n  \x7d\n  \n  if (!data.name) \x7b\n    errors.push(\x27Name is required\x27);\n  \x7d\n\x7d\n\nif (errors.length > 0) \x7b\n  throw new Error(\x27Validation failed: \x27 + errors.join(\x27, \x27));\n\x7d\n\nreturn items;"))]

/-- `getNodeParameters`: dispatch on `nodeType`, defaulting to the generic
scriptable (function-code) template. -/
def getNodeParameters {α : Type} (node : RFNode α) : List (String × JVal) :=
  if node.nodeType == "trigger" then getTriggerParameters node
  else if node.nodeType == "action" then getActionParameters node
  else if node.nodeType == "condition" then getConditionParameters node
  else if node.nodeType == "validation" then getValidationParameters node
  else [("functionCode", .s ("// " ++ node.label ++ "\nreturn items;"))]

/-- An output node of the n8n document (`interface N8nNode`). -/
structure N8nNode (α : Type) where
  id : String
  name : String
  type : String
  typeVersion : Nat
  position : α × α
  parameters : List (String × JVal)
  webhookId : Option String

/-- `generateWebhookId`: `nodex-` plus a random suffix; `rand` is the
random-string oracle, keyed by the calling node's id. -/
def generateWebhookId (rand : String → String) (nodeId : String) : String :=
  "nodex-" ++ rand nodeId

/-- `convertNode`: builds the base node and, for webhook triggers, adds a
`webhookId` and overlays the webhook parameter block (HTTP method, path
derived from the node id, response mode and response template). -/
def convertNode {α : Type} (rand : String → String) (node : RFNode α) : N8nNode α :=
  let baseNode : N8nNode α :=
    ⟨node.id, node.label, getN8nNodeType node, 1, (node.x, node.y),
     getNodeParameters node, none⟩
  if node.nodeType == "trigger" && includesLC node.label "webhook" then
    { baseNode with
      webhookId := some (generateWebhookId rand node.id),
      parameters := jsSpread baseNode.parameters
        [("httpMethod", .s "POST"),
         ("path", .s ("nodex-" ++ node.id)),
         ("responseMode", .s "onReceived"),
         ("responseData", .s "\x7b \"success\": true, \"message\": \"Workflow triggered\" \x7d")] }
  else baseNode

/-- `convertNodes`: one output node per input node. -/
def convertNodes {α : Type} (rand : String → String) (nodes : List (RFNode α)) :
    List (N8nNode α) :=
  nodes.map (convertNode rand)

/-- A connection-map value: `{ main: [[...]] }`. -/
structure ConnEntry where
  node : String
  type : String
  index : Nat
deriving DecidableEq

/-- The `main` wrapper of a connection-map value. -/
structure ConnValue where
  main : List (List ConnEntry)
deriving DecidableEq

/-- The `main[0]` adjacency list of a connection-map value. -/
def main0 (v : ConnValue) : List ConnEntry := v.main.headD []

/-- `connections[label].main[0].push(entry)`. -/
def pushMain0 (c : ConnEntry) (v : ConnValue) : ConnValue :=
  { main := match v.main with
    | [] => []
    | inner :: rest => (inner ++ [c]) :: rest }

/-- Apply `f` to the value stored at key `k`. -/
def updateKey {β : Type} (f : β → β) : List (String × β) → String → List (String × β)
  | [], _ => []
  | (k1, v) :: rest, k =>
    if k1 == k then (k1, f v) :: rest else (k1, v) :: updateKey f rest k

/-- The initialization loop of `convertConnections`: every node's label
becomes a key with an empty adjacency list. -/
def initConnections {α : Type} (nodes : List (RFNode α)) : List (String × ConnValue) :=
  nodes.foldl (fun connections node => setKey connections node.label ⟨[[]]⟩) []

/-- The edge loop body of `convertConnections`: look up source and target
nodes by id and push `{node: targetLabel, type: "main", index: 0}` under
the source node's label. -/
def addConnection {α : Type} (nodes : List (RFNode α))
    (connections : List (String × ConnValue)) (edge : RFEdge) :
    List (String × ConnValue) :=
  match nodes.find? (fun x => x.id == edge.source),
        nodes.find? (fun x => x.id == edge.target) with
  | some sourceNode, some targetNode =>
    let sourceLabel := sourceNode.label
    let connections :=
      if (lookupKey connections sourceLabel).isNone then
        connections ++ [(sourceLabel, ⟨[[]]⟩)]
      else connections
    updateKey (pushMain0 ⟨targetNode.label, "main", 0⟩) connections sourceLabel
  | _, _ => connections

/-- `convertConnections`: initialize a key per node label, then add every
edge whose endpoints resolve. -/
def convertConnections {α : Type} (nodes : List (RFNode α)) (edges : List RFEdge) :
    List (String × ConnValue) :=
  edges.foldl (addConnection nodes) (initConnections nodes)

/-- `generateWorkflowName`: trigger label plus date, else the default;
`today` is the `new Date().toISOString().split('T')[0]` oracle. -/
def generateWorkflowName {α : Type} (today : String) (nodes : List (RFNode α)) : String :=
  match nodes.find? (fun x => x.nodeType == "trigger") with
  | some triggerNode => triggerNode.label ++ " - " ++ today
  | none => "Nodex Workflow - " ++ today

/-- The n8n workflow document (`interface N8nWorkflow`): its fields are
exactly `name`, `nodes`, `connections`, `active`, `settings`,
`staticData`. -/
structure N8nWorkflow (α : Type) where
  name : String
  nodes : List (N8nNode α)
  connections : List (String × ConnValue)
  active : Bool
  settings : List (String × JVal)
  staticData : List (String × JVal)

/-- `convert`: assembles the workflow document. -/
def convert {α : Type} (rand : String → String) (today : String)
    (nodes : List (RFNode α)) (edges : List RFEdge) : N8nWorkflow α :=
  { name := generateWorkflowName today nodes
    nodes := convertNodes rand nodes
    connections := convertConnections nodes edges
    active := false
    settings := [("executionOrder", .s "v1")]
    staticData := [] }

/-- The per-node credential pushes of `getRequiredCredentials` (three
independent label tests). -/
def credPushes {α : Type} (node : RFNode α) : List String :=
  let label := lowerStr node.label
  (if strIncludes label "llm" || strIncludes label "ai" || strIncludes label "gpt" then
    ["OpenAI API Key"] else []) ++
  (if strIncludes label "email" then ["SMTP/Email Credentials"] else []) ++
  (if strIncludes label "database" then ["Database Connection"] else [])

/-- `Array.from(new Set(xs))`: iterate, skipping strings already seen. -/
def dedupFirstAux (seen : List String) : List String → List String
  | [] => []
  | x :: xs =>
    if seen.contains x then dedupFirstAux seen xs
    else x :: dedupFirstAux (x :: seen) xs

/-- `Array.from(new Set(xs))`: deduplication keeping first occurrences. -/
def dedupFirst (l : List String) : List String := dedupFirstAux [] l

/-- `getRequiredCredentials`: scan every node label once, collect
credential requirements, and deduplicate. -/
def getRequiredCredentials {α : Type} (nodes : List (RFNode α)) : List String :=
  dedupFirst (nodes.foldl (fun credentials node => credentials ++ credPushes node) [])

/-- `generateTestEndpoints`: one example invocation endpoint per webhook
trigger node (trigger nodes whose label contains "webhook"); `nowISO` is
the `new Date().toISOString()` oracle. -/
def generateTestEndpoints {α : Type} (nowISO : String) (nodes : List (RFNode α)) :
    List JVal :=
  let webhookNodes := nodes.filter (fun x =>
    x.nodeType == "trigger" && includesLC x.label "webhook")
  webhookNodes.map (fun node => JVal.obj
    [("method", .s "POST"),
     ("url", .s ("http://localhost:5678/webhook/nodex-" ++ node.id)),
     ("body", .obj [("test", .s "data"), ("timestamp", .s nowISO)]),
     ("description", .s ("Test endpoint for " ++ node.label))])

/-- A top-level component of the `generateDeploymentInstructions`
result. -/
inductive DeployVal (α : Type) where
  | wf (w : N8nWorkflow α)
  | js (v : JVal)

/-- `generateDeploymentInstructions`: the full object returned to callers
of `convertToN8n` — the workflow document plus the deployment-instructions
block.  Its top-level keys are exactly `workflow` and `instructions`. -/
def generateDeploymentInstructions {α : Type} (rand : String → String)
    (today nowISO : String) (nodes : List (RFNode α)) (edges : List RFEdge) :
    List (String × DeployVal α) :=
  [("workflow", .wf (convert rand today nodes edges)),
   ("instructions", .js (JVal.obj
     [("title", .s "Deploy to n8n"),
      ("steps", .arr
        [.obj [("step", .n 1), ("title", .s "Set up n8n"),
               ("description", .s "Install and run n8n instance"),
               ("commands", .arr [.s "npm install n8n -g", .s "n8n start"]),
               ("notes", .s "n8n will be available at http://localhost:5678")],
         .obj [("step", .n 2), ("title", .s "Import Workflow"),
               ("description", .s "Copy the workflow JSON and import to n8n"),
               ("action", .s "Go to n8n → Click \x27+\x27 → \x27Import from JSON\x27 → Paste workflow")],
         .obj [("step", .n 3), ("title", .s "Configure Credentials"),
               ("description", .s "Set up API keys and credentials"),
               ("credentials", .arr ((getRequiredCredentials nodes).map JVal.s))],
         .obj [("step", .n 4), ("title", .s "Activate Workflow"),
               ("description", .s "Turn on the workflow to start processing"),
               ("action", .s "Toggle the workflow switch to \x27Active\x27")],
         .obj [("step", .n 5), ("title", .s "Test Workflow"),
               ("description", .s "Send a test request to verify it works"),
               ("testEndpoints", .arr (generateTestEndpoints nowISO nodes))]]),
      ("cloudOptions", .arr
        [.obj [("name", .s "n8n Cloud"), ("url", .s "https://n8n.cloud"),
               ("description", .s "Managed n8n hosting")],
         .obj [("name", .s "Railway"), ("url", .s "https://railway.app"),
               ("description", .s "Deploy n8n with one-click")]])]))]

/-! ## Association-list lemmas for the connection map -/

/-- The key list of an association list. -/
def keysOf {β : Type} (m : List (String × β)) : List String := m.map Prod.fst

theorem lookupKey_setKey_self {β : Type} (m : List (String × β)) (k : String) (v : β) :
    lookupKey (setKey m k v) k = some v := by
  induction m with
  | nil => simp [setKey, lookupKey]
  | cons hd tl ih =>
    obtain ⟨k1, v1⟩ := hd
    by_cases h : k1 = k
    · subst h; simp [setKey, lookupKey]
    · simp [setKey, lookupKey, h, ih]

theorem lookupKey_setKey_ne {β : Type} (m : List (String × β)) (k k2 : String) (v : β)
    (h : k2 ≠ k) : lookupKey (setKey m k v) k2 = lookupKey m k2 := by
  induction m with
  | nil => simp [setKey, lookupKey, Ne.symm h]
  | cons hd tl ih =>
    obtain ⟨k1, v1⟩ := hd
    by_cases h1 : k1 = k
    · subst h1
      simp [setKey, lookupKey, Ne.symm h]
    · by_cases h2 : k1 = k2
      · subst h2; simp [setKey, lookupKey, h1]
      · simp [setKey, lookupKey, h1, h2, ih]

theorem lookupKey_setKey_isSome {β : Type} (m : List (String × β)) (k k2 : String) (v : β)
    (h : (lookupKey m k2).isSome) : (lookupKey (setKey m k v) k2).isSome := by
  by_cases hk : k2 = k
  · subst hk; rw [lookupKey_setKey_self]; rfl
  · rw [lookupKey_setKey_ne m k k2 v hk]; exact h

theorem lookupKey_updateKey {β : Type} (f : β → β) (m : List (String × β)) (k k2 : String) :
    lookupKey (updateKey f m k) k2 =
      if k2 = k then (lookupKey m k).map f else lookupKey m k2 := by
  induction m with
  | nil => simp [updateKey, lookupKey]
  | cons hd tl ih =>
    obtain ⟨k1, v1⟩ := hd
    by_cases h1 : k1 = k
    · subst h1
      by_cases h2 : k2 = k1
      · subst h2; simp [updateKey, lookupKey]
      · simp [updateKey, lookupKey, h2, Ne.symm h2]
    · by_cases h2 : k1 = k2
      · subst h2
        simp [updateKey, lookupKey, h1, Ne.symm h1]
      · simp [updateKey, lookupKey, h1, h2, ih]

theorem lookupKey_append_left {β : Type} (m l : List (String × β)) (k2 : String)
    (h : (lookupKey m k2).isSome) : lookupKey (m ++ l) k2 = lookupKey m k2 := by
  induction m with
  | nil => simp [lookupKey] at h
  | cons hd tl ih =>
    obtain ⟨k1, v1⟩ := hd
    by_cases h1 : k1 = k2
    · simp [lookupKey, h1]
    · simp only [lookupKey, h1, if_neg, List.cons_append] at h ⊢
      simp only [beq_iff_eq, h1, if_false] at h ⊢
      exact ih h

theorem keysOf_updateKey {β : Type} (f : β → β) (m : List (String × β)) (k : String) :
    keysOf (updateKey f m k) = keysOf m := by
  induction m with
  | nil => rfl
  | cons hd tl ih =>
    obtain ⟨k1, v1⟩ := hd
    by_cases h1 : k1 = k
    · simp [updateKey, keysOf, h1]
    · simp [updateKey, keysOf, h1] at ih ⊢; exact ih

theorem keysOf_setKey {β : Type} (m : List (String × β)) (k : String) (v : β) :
    keysOf (setKey m k v) =
      if (lookupKey m k).isSome then keysOf m else keysOf m ++ [k] := by
  induction m with
  | nil => simp [setKey, keysOf, lookupKey]
  | cons hd tl ih =>
    obtain ⟨k1, v1⟩ := hd
    by_cases h1 : k1 = k
    · subst h1; simp [setKey, keysOf, lookupKey]
    · simp only [setKey, keysOf, lookupKey, beq_iff_eq, h1, if_false, if_neg,
        List.map_cons] at ih ⊢
      rw [ih]
      by_cases h2 : (lookupKey tl k).isSome
      · simp [h2]
      · simp [h2]

theorem mem_keysOf_iff_isSome {β : Type} (m : List (String × β)) (k : String) :
    k ∈ keysOf m ↔ (lookupKey m k).isSome := by
  induction m with
  | nil => simp [keysOf, lookupKey]
  | cons hd tl ih =>
    obtain ⟨k1, v1⟩ := hd
    by_cases h1 : k1 = k
    · subst h1; simp [keysOf, lookupKey]
    · have hmem : (k ∈ keysOf ((k1, v1) :: tl)) ↔ k ∈ keysOf tl := by
        simp [keysOf, Ne.symm h1]
      rw [hmem, ih]
      simp [lookupKey, h1]

theorem lookupKey_append_right {β : Type} (m l : List (String × β)) (k : String)
    (h : (lookupKey m k).isSome = false) : lookupKey (m ++ l) k = lookupKey l k := by
  induction m with
  | nil => rfl
  | cons hd tl ih =>
    obtain ⟨k1, v1⟩ := hd
    by_cases h1 : k1 = k
    · subst h1; simp [lookupKey] at h
    · simp only [lookupKey, beq_iff_eq, h1, if_false, List.cons_append] at h ⊢
      exact ih h

/-! ## Connection-map invariants -/

/-- Every value stored in the connection map has a nonempty `main` list
(so `main[0].push` is well-defined). -/
def wfConn (m : List (String × ConnValue)) : Prop :=
  ∀ k v, lookupKey m k = some v → v.main ≠ []

/-- The adjacency entry `c` is recorded under key `k`. -/
def entryIn (m : List (String × ConnValue)) (k : String) (c : ConnEntry) : Prop :=
  ∃ v, lookupKey m k = some v ∧ c ∈ main0 v

theorem wfConn_setKey {m : List (String × ConnValue)} (hm : wfConn m) (k : String)
    {v : ConnValue} (hv : v.main ≠ []) : wfConn (setKey m k v) := by
  intro k2 v2 h2
  by_cases hk : k2 = k
  · subst hk; rw [lookupKey_setKey_self] at h2; cases h2; exact hv
  · rw [lookupKey_setKey_ne m k k2 v hk] at h2; exact hm k2 v2 h2

theorem wfConn_initConnections {α : Type} (nodes : List (RFNode α)) :
    wfConn (initConnections nodes) := by
  unfold initConnections
  suffices h : ∀ (l : List (RFNode α)) (m : List (String × ConnValue)), wfConn m →
      wfConn (l.foldl (fun connections node => setKey connections node.label ⟨[[]]⟩) m) by
    exact h nodes [] (fun k v hv => by simp [lookupKey] at hv)
  intro l
  induction l with
  | nil => intro m hm; exact hm
  | cons a tl ih =>
    intro m hm
    exact ih _ (wfConn_setKey hm a.label (by simp))

theorem wfConn_addConnection {α : Type} (nodes : List (RFNode α)) (e : RFEdge)
    {m : List (String × ConnValue)} (hm : wfConn m) :
    wfConn (addConnection nodes m e) := by
  unfold addConnection
  cases hs : nodes.find? (fun x => x.id == e.source) with
  | none => exact hm
  | some s =>
    cases ht : nodes.find? (fun x => x.id == e.target) with
    | none => exact hm
    | some t =>
      have hg : wfConn (if (lookupKey m s.label).isNone then
          m ++ [(s.label, ⟨[[]]⟩)] else m) := by
        by_cases hcase : (lookupKey m s.label).isNone
        · simp only [hcase, if_true]
          intro k v hv
          by_cases hkm : (lookupKey m k).isSome
          · rw [lookupKey_append_left m _ k hkm] at hv; exact hm k v hv
          · rw [lookupKey_append_right m _ k (by simpa using hkm)] at hv
            simp only [lookupKey] at hv
            by_cases h2 : s.label = k
            · simp only [h2, beq_self_eq_true, if_true] at hv
              cases hv; simp
            · simp [h2] at hv
        · simp only [hcase, if_false]; exact hm
      intro k v hv
      rw [lookupKey_updateKey] at hv
      by_cases hk : k = s.label
      · simp only [hk, if_true] at hv
        cases hlk : lookupKey (if (lookupKey m s.label).isNone then
            m ++ [(s.label, ⟨[[]]⟩)] else m) s.label with
        | none => rw [hlk] at hv; simp at hv
        | some v0 =>
          rw [hlk] at hv
          have hv2 : pushMain0 ⟨t.label, "main", 0⟩ v0 = v := by simpa using hv
          subst hv2
          have h0 := hg s.label v0 hlk
          unfold pushMain0
          cases hv0 : v0.main with
          | nil => exact absurd hv0 h0
          | cons inner rest => simp [hv0]
      · simp only [hk, if_false] at hv
        exact hg k v hv

/-- The guard branch of `addConnection` always leaves the source label
present. -/
theorem lookupKey_guard_isSome (m : List (String × ConnValue)) (k : String) :
    (lookupKey (if (lookupKey m k).isNone then m ++ [(k, ⟨[[]]⟩)] else m) k).isSome := by
  cases hc : (lookupKey m k).isNone with
  | true =>
    simp only [hc, if_true]
    rw [lookupKey_append_right m _ k (by simp [Option.isNone_iff_eq_none.mp hc])]
    simp [lookupKey]
  | false =>
    simp only [hc, Bool.false_eq_true, if_false]
    cases hx : lookupKey m k with
    | none => rw [hx] at hc; simp at hc
    | some v => simp

/-- The guard branch of `addConnection` preserves the presence of any
key. -/
theorem lookupKey_guard_present (m : List (String × ConnValue)) (k k2 : String)
    (h : (lookupKey m k2).isSome) :
    lookupKey (if (lookupKey m k).isNone then m ++ [(k, ⟨[[]]⟩)] else m) k2 =
      lookupKey m k2 := by
  cases hc : (lookupKey m k).isNone with
  | true =>
    simp only [hc, if_true]
    exact lookupKey_append_left m _ k2 h
  | false => simp only [hc, Bool.false_eq_true, if_false]

/-- The guard branch of `addConnection` preserves `wfConn`. -/
theorem wfConn_guard {m : List (String × ConnValue)} (hm : wfConn m) (k : String) :
    wfConn (if (lookupKey m k).isNone then m ++ [(k, ⟨[[]]⟩)] else m) := by
  cases hc : (lookupKey m k).isNone with
  | true =>
    simp only [hc, if_true]
    intro k2 v hv
    by_cases hkm : (lookupKey m k2).isSome
    · rw [lookupKey_append_left m _ k2 hkm] at hv; exact hm k2 v hv
    · rw [lookupKey_append_right m _ k2 (by simpa using hkm)] at hv
      simp only [lookupKey] at hv
      by_cases h2 : k = k2
      · simp only [h2, beq_self_eq_true, if_true] at hv
        cases hv; simp
      · simp [h2] at hv
  | false => simp only [hc, Bool.false_eq_true, if_false]; exact hm

/-- `addConnection` preserves the presence of any key. -/
theorem keyPresent_addConnection {α : Type} (nodes : List (RFNode α)) (e : RFEdge)
    (m : List (String × ConnValue)) (k : String) (h : (lookupKey m k).isSome) :
    (lookupKey (addConnection nodes m e) k).isSome := by
  unfold addConnection
  cases hs : nodes.find? (fun x => x.id == e.source) with
  | none => exact h
  | some s =>
    cases ht : nodes.find? (fun x => x.id == e.target) with
    | none => exact h
    | some t =>
      rw [lookupKey_updateKey]
      by_cases hk : k = s.label
      · simp only [hk, if_true]
        have h1 := lookupKey_guard_isSome m s.label
        cases hlk : lookupKey (if (lookupKey m s.label).isNone then
            m ++ [(s.label, ⟨[[]]⟩)] else m) s.label with
        | none => rw [hlk] at h1; simp at h1
        | some v0 => simp [hlk]
      · simp only [hk, if_false]
        rw [lookupKey_guard_present m s.label k h]
        exact h

/-- `addConnection` preserves recorded adjacency entries. -/
theorem entryIn_addConnection {α : Type} (nodes : List (RFNode α)) (e : RFEdge)
    (m : List (String × ConnValue)) (k : String) (c : ConnEntry)
    (h : entryIn m k c) : entryIn (addConnection nodes m e) k c := by
  obtain ⟨v, hv, hc⟩ := h
  unfold addConnection
  cases hs : nodes.find? (fun x => x.id == e.source) with
  | none => exact ⟨v, hv, hc⟩
  | some s =>
    cases ht : nodes.find? (fun x => x.id == e.target) with
    | none => exact ⟨v, hv, hc⟩
    | some t =>
      have hpres := lookupKey_guard_present m s.label k (by simp [hv])
      by_cases hk : k = s.label
      · subst hk
        refine ⟨pushMain0 ⟨t.label, "main", 0⟩ v, ?_, ?_⟩
        · rw [lookupKey_updateKey, if_pos rfl, hpres, hv]
          rfl
        · cases hvm : v.main with
          | nil => simp [main0, hvm] at hc
          | cons inner rest =>
            simp only [main0, pushMain0, hvm, List.headD_cons] at hc ⊢
            exact List.mem_append_left _ hc
      · refine ⟨v, ?_, hc⟩
        rw [lookupKey_updateKey, if_neg hk, hpres]
        exact hv

/-- `addConnection` records its own edge's entry under the source node's
label. -/
theorem entryIn_addConnection_self {α : Type} (nodes : List (RFNode α)) (e : RFEdge)
    (m : List (String × ConnValue)) (s t : RFNode α)
    (hs : nodes.find? (fun x => x.id == e.source) = some s)
    (ht : nodes.find? (fun x => x.id == e.target) = some t)
    (hm : wfConn m) :
    entryIn (addConnection nodes m e) s.label ⟨t.label, "main", 0⟩ := by
  unfold addConnection
  rw [hs, ht]
  have h1 := lookupKey_guard_isSome m s.label
  cases hlk : lookupKey (if (lookupKey m s.label).isNone then
      m ++ [(s.label, ⟨[[]]⟩)] else m) s.label with
  | none => rw [hlk] at h1; simp at h1
  | some v0 =>
    refine ⟨pushMain0 ⟨t.label, "main", 0⟩ v0, ?_, ?_⟩
    · rw [lookupKey_updateKey, if_pos rfl, hlk]
      rfl
    · have h0 : v0.main ≠ [] := wfConn_guard hm s.label s.label v0 hlk
      cases hvm : v0.main with
      | nil => exact absurd hvm h0
      | cons inner rest => simp [main0, pushMain0, hvm]

/-- Folding the edge loop preserves entries. -/
theorem entryIn_foldl_addConnection {α : Type} (nodes : List (RFNode α))
    (edges : List RFEdge) (m : List (String × ConnValue)) (k : String) (c : ConnEntry)
    (h : entryIn m k c) : entryIn (edges.foldl (addConnection nodes) m) k c := by
  induction edges generalizing m with
  | nil => exact h
  | cons a tl ih => exact ih _ (entryIn_addConnection nodes a m k c h)

/-- Folding the edge loop preserves `wfConn`. -/
theorem wfConn_foldl_addConnection {α : Type} (nodes : List (RFNode α))
    (edges : List RFEdge) (m : List (String × ConnValue)) (hm : wfConn m) :
    wfConn (edges.foldl (addConnection nodes) m) := by
  induction edges generalizing m with
  | nil => exact hm
  | cons a tl ih => exact ih _ (wfConn_addConnection nodes a hm)

/-- Folding the edge loop preserves key presence. -/
theorem keyPresent_foldl_addConnection {α : Type} (nodes : List (RFNode α))
    (edges : List RFEdge) (m : List (String × ConnValue)) (k : String)
    (h : (lookupKey m k).isSome) :
    (lookupKey (edges.foldl (addConnection nodes) m) k).isSome := by
  induction edges generalizing m with
  | nil => exact h
  | cons a tl ih => exact ih _ (keyPresent_addConnection nodes a m k h)

/-- The initialization fold keeps previously present keys present. -/
theorem keyPresent_foldl_setKey {α : Type} (l : List (RFNode α))
    (m : List (String × ConnValue)) (k : String) (h : (lookupKey m k).isSome) :
    (lookupKey (l.foldl (fun connections node =>
      setKey connections node.label ⟨[[]]⟩) m) k).isSome := by
  induction l generalizing m with
  | nil => exact h
  | cons a tl ih => exact ih _ (lookupKey_setKey_isSome m a.label k _ h)

/-- Every node's label is a key of `initConnections`. -/
theorem keyPresent_initConnections {α : Type} (nodes : List (RFNode α))
    (n : RFNode α) (hn : n ∈ nodes) :
    (lookupKey (initConnections nodes) n.label).isSome := by
  unfold initConnections
  suffices h : ∀ (l : List (RFNode α)) (m : List (String × ConnValue)), n ∈ l →
      (lookupKey (l.foldl (fun connections node =>
        setKey connections node.label ⟨[[]]⟩) m) n.label).isSome by
    exact h nodes [] hn
  intro l
  induction l with
  | nil => intro m h; cases h
  | cons a tl ih =>
    intro m h
    rcases List.mem_cons.mp h with h | h
    · subst h
      exact keyPresent_foldl_setKey tl _ _ (by rw [lookupKey_setKey_self]; rfl)
    · exact ih _ h

/-- Every edge whose endpoints resolve leaves its adjacency entry in the
final connection map, under the source node's label. -/
theorem entryIn_convertConnections {α : Type} (nodes : List (RFNode α))
    (edges : List RFEdge) (e : RFEdge) (he : e ∈ edges) (s t : RFNode α)
    (hs : nodes.find? (fun x => x.id == e.source) = some s)
    (ht : nodes.find? (fun x => x.id == e.target) = some t) :
    entryIn (convertConnections nodes edges) s.label ⟨t.label, "main", 0⟩ := by
  unfold convertConnections
  suffices h : ∀ (l : List RFEdge) (m : List (String × ConnValue)), wfConn m → e ∈ l →
      entryIn (l.foldl (addConnection nodes) m) s.label ⟨t.label, "main", 0⟩ by
    exact h edges _ (wfConn_initConnections nodes) he
  intro l
  induction l with
  | nil => intro m _ h; cases h
  | cons a tl ih =>
    intro m hw hmem
    rcases List.mem_cons.mp hmem with h | h
    · subst h
      exact entryIn_foldl_addConnection nodes tl _ _ _
        (entryIn_addConnection_self nodes e m s t hs ht hw)
    · exact ih _ (wfConn_addConnection nodes a hw) h

/-- When every node label is already a key, `addConnection` adds no new
key. -/
theorem keysOf_addConnection {α : Type} (nodes : List (RFNode α)) (e : RFEdge)
    (m : List (String × ConnValue))
    (hp : ∀ n ∈ nodes, (lookupKey m n.label).isSome) :
    keysOf (addConnection nodes m e) = keysOf m := by
  unfold addConnection
  cases hs : nodes.find? (fun x => x.id == e.source) with
  | none => rfl
  | some s =>
    cases ht : nodes.find? (fun x => x.id == e.target) with
    | none => rfl
    | some t =>
      have hsm : (lookupKey m s.label).isSome :=
        hp s (List.mem_of_find?_eq_some hs)
      have hnone : (lookupKey m s.label).isNone = false := by
        cases hx : lookupKey m s.label with
        | none => rw [hx] at hsm; simp at hsm
        | some v => simp
      show keysOf (updateKey (pushMain0 ⟨t.label, "main", 0⟩)
          (if (lookupKey m s.label).isNone then m ++ [(s.label, ⟨[[]]⟩)] else m) s.label) =
        keysOf m
      rw [hnone]
      simp only [Bool.false_eq_true, if_false]
      exact keysOf_updateKey _ m s.label

/-- The edge loop never changes the key list of the connection map. -/
theorem keysOf_convertConnections {α : Type} (nodes : List (RFNode α))
    (edges : List RFEdge) :
    keysOf (convertConnections nodes edges) = keysOf (initConnections nodes) := by
  unfold convertConnections
  suffices h : ∀ (l : List RFEdge) (m : List (String × ConnValue)),
      (∀ n ∈ nodes, (lookupKey m n.label).isSome) →
      keysOf (l.foldl (addConnection nodes) m) = keysOf m by
    exact h edges _ (fun n hn => keyPresent_initConnections nodes n hn)
  intro l
  induction l with
  | nil => intro m _; rfl
  | cons a tl ih =>
    intro m hp
    rw [List.foldl_cons,
      ih _ (fun n hn => keyPresent_addConnection nodes a m n.label (hp n hn))]
    exact keysOf_addConnection nodes a m hp

/-- The initialization fold only adds keys drawn from the node labels. -/
theorem keysOf_init_subset {α : Type} (l : List (RFNode α))
    (m : List (String × ConnValue)) :
    ∀ k ∈ keysOf (l.foldl (fun connections node =>
      setKey connections node.label ⟨[[]]⟩) m), k ∈ keysOf m ∨ k ∈ l.map (fun n => n.label) := by
  induction l generalizing m with
  | nil => intro k hk; exact Or.inl hk
  | cons a tl ih =>
    intro k hk
    rcases ih (setKey m a.label ⟨[[]]⟩) k hk with h | h
    · rw [keysOf_setKey] at h
      by_cases hc : (lookupKey m a.label).isSome
      · rw [if_pos hc] at h; exact Or.inl h
      · rw [if_neg hc] at h
        rcases List.mem_append.mp h with h | h
        · exact Or.inl h
        · right; simp only [List.mem_singleton] at h
          simp [h]
    · right; simp [h]

/-- The initialization fold keeps the key list duplicate-free. -/
theorem keysOf_init_nodup {α : Type} (l : List (RFNode α))
    (m : List (String × ConnValue)) (hm : (keysOf m).Nodup) :
    (keysOf (l.foldl (fun connections node =>
      setKey connections node.label ⟨[[]]⟩) m)).Nodup := by
  induction l generalizing m with
  | nil => exact hm
  | cons a tl ih =>
    refine ih (setKey m a.label ⟨[[]]⟩) ?_
    rw [keysOf_setKey]
    by_cases hc : (lookupKey m a.label).isSome
    · rw [if_pos hc]; exact hm
    · rw [if_neg hc]
      have : a.label ∉ keysOf m := by
        rw [mem_keysOf_iff_isSome]; exact hc
      simp [List.nodup_append, hm, this]

/-- A duplicate-free list contained in another list is no longer than the
other list's deduplication. -/
theorem nodup_subset_length_le_dedup {l m : List String} (hn : l.Nodup) (h : l ⊆ m) :
    l.length ≤ m.dedup.length := by
  have h1 : l.toFinset.card = l.length := List.toFinset_card_of_nodup hn
  have h2 : l.toFinset ⊆ m.toFinset := by
    intro a ha; rw [List.mem_toFinset] at *; exact h ha
  have h3 := Finset.card_le_card h2
  rw [h1, List.card_toFinset] at h3
  exact h3

/-- A list with a duplicate strictly shrinks under deduplication. -/
theorem dedup_length_lt_of_not_nodup {l : List String} (h : ¬ l.Nodup) :
    l.dedup.length < l.length := by
  rcases Nat.lt_or_ge l.dedup.length l.length with h1 | h1
  · exact h1
  · have heq : l.dedup = l :=
      l.dedup_sublist.eq_of_length (Nat.le_antisymm l.dedup_sublist.length_le h1)
    exact absurd (List.dedup_eq_self.mp heq) h

/-- C2: for every input graph whose edges all reference existing nodes,
the translated document has exactly one output node per input node; the
connection map is keyed by source labels and every node's label is a key
(even with an empty adjacency list); and every edge appears as an entry
`{node: targetLabel, type: "main", index: 0}` under its source node's
label key. -/
theorem translate_preserves_nodes_and_edges {α : Type} (rand : String → String)
    (nodes : List (RFNode α)) (edges : List RFEdge)
    (href : ∀ e ∈ edges, (∃ n ∈ nodes, n.id = e.source) ∧ (∃ n ∈ nodes, n.id = e.target)) :
    (convertNodes rand nodes).length = nodes.length ∧
    (∀ n ∈ nodes, (lookupKey (convertConnections nodes edges) n.label).isSome) ∧
    (∀ e ∈ edges, ∃ s t : RFNode α,
      nodes.find? (fun x => x.id == e.source) = some s ∧
      nodes.find? (fun x => x.id == e.target) = some t ∧
      entryIn (convertConnections nodes edges) s.label ⟨t.label, "main", 0⟩) := by
  refine ⟨by simp [convertNodes], ?_, ?_⟩
  · intro n hn
    unfold convertConnections
    exact keyPresent_foldl_addConnection nodes edges _ n.label
      (keyPresent_initConnections nodes n hn)
  · intro e he
    obtain ⟨⟨ns, hns, hids⟩, ⟨nt, hnt, hidt⟩⟩ := href e he
    have hs : (nodes.find? (fun x => x.id == e.source)).isSome := by
      rw [List.find?_isSome]
      exact ⟨ns, hns, by simp [hids]⟩
    have ht : (nodes.find? (fun x => x.id == e.target)).isSome := by
      rw [List.find?_isSome]
      exact ⟨nt, hnt, by simp [hidt]⟩
    cases hfs : nodes.find? (fun x => x.id == e.source) with
    | none => rw [hfs] at hs; simp at hs
    | some s =>
      cases hft : nodes.find? (fun x => x.id == e.target) with
      | none => rw [hft] at ht; simp at ht
      | some t =>
        exact ⟨s, t, rfl, rfl, entryIn_convertConnections nodes edges e he s t hfs hft⟩

/-- The C2 witness graph: two distinctly-labelled nodes joined by one
edge. -/
def exC2nodes : List (RFNode Int) :=
  [⟨"a", "Invoice Received", "trigger", none, false, none, 0, 0⟩,
   ⟨"b", "Process Payment", "action", none, false, none, 200, 0⟩]

/-- Witness for `translate_preserves_nodes_and_edges` on a concrete
two-node, one-edge graph. -/
theorem translate_preserves_nodes_and_edges_witness :
    (convertNodes (fun _ => "r") exC2nodes).length = exC2nodes.length ∧
    (∀ n ∈ exC2nodes,
      (lookupKey (convertConnections exC2nodes [⟨"e1", "a", "b"⟩]) n.label).isSome) ∧
    (∀ e ∈ [(⟨"e1", "a", "b"⟩ : RFEdge)], ∃ s t : RFNode Int,
      exC2nodes.find? (fun x => x.id == e.source) = some s ∧
      exC2nodes.find? (fun x => x.id == e.target) = some t ∧
      entryIn (convertConnections exC2nodes [⟨"e1", "a", "b"⟩]) s.label
        ⟨t.label, "main", 0⟩) :=
  translate_preserves_nodes_and_edges (fun _ => "r") exC2nodes [⟨"e1", "a", "b"⟩]
    (by
      intro e he
      simp only [List.mem_singleton] at he
      subst he
      constructor
      · exact ⟨⟨"a", "Invoice Received", "trigger", none, false, none, 0, 0⟩,
          by decide, rfl⟩
      · exact ⟨⟨"b", "Process Payment", "action", none, false, none, 200, 0⟩,
          by decide, rfl⟩)

/-- C9: the connection map is keyed by node labels, not ids, so when two
distinct nodes share a label the map has strictly fewer keys than the
graph has nodes, and every resolved edge whose source carries the shared
label lands under the one shared key (with targets likewise recorded only
by label). -/
theorem duplicate_labels_merge_keys {α : Type} (nodes : List (RFNode α))
    (edges : List RFEdge) (a b : RFNode α) (ha : a ∈ nodes) (hb : b ∈ nodes)
    (hid : a.id ≠ b.id) (hlab : a.label = b.label) :
    (keysOf (convertConnections nodes edges)).length < nodes.length ∧
    (∀ e ∈ edges, ∀ s t : RFNode α,
      nodes.find? (fun x => x.id == e.source) = some s → s.label = a.label →
      nodes.find? (fun x => x.id == e.target) = some t →
      entryIn (convertConnections nodes edges) a.label ⟨t.label, "main", 0⟩) := by
  constructor
  · rw [keysOf_convertConnections nodes edges]
    have hinit : initConnections nodes = nodes.foldl (fun connections node =>
        setKey connections node.label ⟨[[]]⟩) [] := rfl
    have hsub : ∀ k ∈ keysOf (initConnections nodes),
        k ∈ nodes.map (fun n => n.label) := by
      intro k hk
      rw [hinit] at hk
      rcases keysOf_init_subset nodes [] k hk with h | h
      · simp [keysOf] at h
      · exact h
    have hnodup : (keysOf (initConnections nodes)).Nodup := by
      rw [hinit]
      exact keysOf_init_nodup nodes [] (by simp [keysOf])
    have hlen := nodup_subset_length_le_dedup hnodup hsub
    have hnotnodup : ¬ (nodes.map (fun n => n.label)).Nodup := by
      intro hnd
      exact absurd (List.inj_on_of_nodup_map hnd ha hb hlab)
        (fun h => hid (congrArg RFNode.id h))
    have hlt := dedup_length_lt_of_not_nodup hnotnodup
    calc (keysOf (initConnections nodes)).length
        ≤ (nodes.map (fun n => n.label)).dedup.length := hlen
      _ < (nodes.map (fun n => n.label)).length := hlt
      _ = nodes.length := List.length_map _ _
  · intro e he s t hfs hslab hft
    have h := entryIn_convertConnections nodes edges e he s t hfs hft
    rwa [hslab] at h

/-- The C9 witness graph: two nodes with the same label "Process Step" and
one edge between them. -/
def exC9nodes : List (RFNode Int) :=
  [⟨"p1", "Process Step", "action", none, false, none, 0, 0⟩,
   ⟨"p2", "Process Step", "action", none, false, none, 200, 0⟩]

/-- Witness for `duplicate_labels_merge_keys` on the concrete
duplicate-label graph. -/
theorem duplicate_labels_merge_keys_witness :
    (keysOf (convertConnections exC9nodes [⟨"e1", "p1", "p2"⟩])).length <
      exC9nodes.length ∧
    (∀ e ∈ [(⟨"e1", "p1", "p2"⟩ : RFEdge)], ∀ s t : RFNode Int,
      exC9nodes.find? (fun x => x.id == e.source) = some s →
      s.label = "Process Step" →
      exC9nodes.find? (fun x => x.id == e.target) = some t →
      entryIn (convertConnections exC9nodes [⟨"e1", "p1", "p2"⟩]) "Process Step"
        ⟨t.label, "main", 0⟩) :=
  duplicate_labels_merge_keys exC9nodes [⟨"e1", "p1", "p2"⟩]
    ⟨"p1", "Process Step", "action", none, false, none, 0, 0⟩
    ⟨"p2", "Process Step", "action", none, false, none, 200, 0⟩
    (by decide) (by decide) (by decide) (by decide)

/-- C6: trigger sub-kind inference — a trigger label containing "webhook"
maps to the webhook trigger type, otherwise one containing "schedule" maps
to the cron trigger type, and any other trigger label maps to the manual
trigger type; and every webhook trigger's emitted parameter block carries
an HTTP method, a path derived from the node id, and the response
template. -/
theorem trigger_type_inference {α : Type} (rand : String → String) (n : RFNode α)
    (htrig : n.nodeType = "trigger") :
    (includesLC n.label "webhook" = true →
      getN8nNodeType n = "n8n-nodes-base.webhook" ∧
      lookupKey (convertNode rand n).parameters "httpMethod" = some (.s "POST") ∧
      lookupKey (convertNode rand n).parameters "path" =
        some (.s ("nodex-" ++ n.id)) ∧
      lookupKey (convertNode rand n).parameters "responseMode" =
        some (.s "onReceived") ∧
      lookupKey (convertNode rand n).parameters "responseData" =
        some (.s "\x7b \"success\": true, \"message\": \"Workflow triggered\" \x7d")) ∧
    (includesLC n.label "webhook" = false → includesLC n.label "schedule" = true →
      getN8nNodeType n = "n8n-nodes-base.cron") ∧
    (includesLC n.label "webhook" = false → includesLC n.label "schedule" = false →
      getN8nNodeType n = "n8n-nodes-base.manualTrigger") := by
  refine ⟨?_, ?_, ?_⟩
  · intro hw
    have hw2 : strIncludes (lowerStr n.label) "webhook" = true := hw
    refine ⟨by simp [getN8nNodeType, htrig, hw], ?_, ?_, ?_, ?_⟩ <;>
      simp [convertNode, getNodeParameters, getTriggerParameters, jsSpread, setKey,
        lookupKey, htrig, hw, hw2, includesLC]
  · intro hw hs
    have hw2 : strIncludes (lowerStr n.label) "webhook" = false := hw
    have hs2 : strIncludes (lowerStr n.label) "schedule" = true := hs
    simp [getN8nNodeType, htrig, hw, hs, hw2, hs2, includesLC]
  · intro hw hs
    simp [getN8nNodeType, htrig, hw, hs]

/-- Witness for `trigger_type_inference` at a concrete webhook trigger, a
concrete schedule trigger and a concrete manual trigger. -/
theorem trigger_type_inference_witness :
    (getN8nNodeType (⟨"w1", "Webhook Start", "trigger", none, false, none,
        (0 : Int), 0⟩ : RFNode Int) = "n8n-nodes-base.webhook" ∧
      lookupKey (convertNode (fun _ => "r")
        (⟨"w1", "Webhook Start", "trigger", none, false, none, (0 : Int), 0⟩ :
          RFNode Int)).parameters "path" = some (.s "nodex-w1")) ∧
    getN8nNodeType (⟨"s1", "Daily Schedule", "trigger", none, false, none,
        (0 : Int), 0⟩ : RFNode Int) = "n8n-nodes-base.cron" ∧
    getN8nNodeType (⟨"m1", "Start", "trigger", none, false, none,
        (0 : Int), 0⟩ : RFNode Int) = "n8n-nodes-base.manualTrigger" := by
  refine ⟨?_, ?_, ?_⟩
  · have h := (trigger_type_inference (fun _ => "r")
      (⟨"w1", "Webhook Start", "trigger", none, false, none, (0 : Int), 0⟩ : RFNode Int)
      rfl).1 (by decide)
    exact ⟨h.1, h.2.2.1⟩
  · exact (trigger_type_inference (fun _ => "r")
      (⟨"s1", "Daily Schedule", "trigger", none, false, none, (0 : Int), 0⟩ : RFNode Int)
      rfl).2.1 (by decide) (by decide)
  · exact (trigger_type_inference (fun _ => "r")
      (⟨"m1", "Start", "trigger", none, false, none, (0 : Int), 0⟩ : RFNode Int)
      rfl).2.2 (by decide) (by decide)

/-- The C7 counterexample node: an unrecognized kind ("monitoring"). -/
def exC7node : RFNode Int :=
  ⟨"x1", "Watch Queue", "monitoring", none, false, none, 0, 0⟩

/-- C7, counterexample: the claim states that a translation-warnings list
is returned alongside the external document.  The converter's output — the
workflow document produced by `convert` (fields `name`, `nodes`,
`connections`, `active`, `settings`, `staticData` per `interface
N8nWorkflow`) wrapped by `generateDeploymentInstructions` under the two
top-level keys `workflow` and `instructions` — contains no warnings list
under any key. -/
theorem no_translation_warnings_returned :
    keysOf (generateDeploymentInstructions (fun _ => "r") "2026-01-01"
      "2026-01-01T00:00:00.000Z" [exC7node] []) = ["workflow", "instructions"] ∧
    lookupKey (generateDeploymentInstructions (fun _ => "r") "2026-01-01"
      "2026-01-01T00:00:00.000Z" [exC7node] []) "warnings" = none ∧
    getN8nNodeType exC7node = "n8n-nodes-base.function" := by
  exact ⟨rfl, rfl, rfl⟩

/-- C7, amended: translation never aborts — every node of unrecognized
kind falls back to the generic scriptable (function/code) template, and an
action node whose label matches no keyword pattern (llm/ai/gpt, email,
database/db, http/api) falls back to the generic code node with the
generic `functionCode` template — but no translation-warnings list
accompanies the returned document: the output's top-level keys are exactly
`workflow` and `instructions`. -/
theorem unrecognized_kind_falls_back {α : Type} (rand : String → String)
    (today nowISO : String) (nodes : List (RFNode α)) (edges : List RFEdge) :
    (∀ n : RFNode α,
      n.nodeType ∉ (["trigger", "action", "condition", "notification"] : List String) →
      getN8nNodeType n = "n8n-nodes-base.function") ∧
    (∀ n : RFNode α,
      n.nodeType ∉ (["trigger", "action", "condition", "validation"] : List String) →
      getNodeParameters n =
        [("functionCode", .s ("// " ++ n.label ++ "\nreturn items;"))]) ∧
    (∀ n : RFNode α, n.nodeType = "action" →
      strIncludes (lowerStr n.label) "llm" = false →
      strIncludes (lowerStr n.label) "ai" = false →
      strIncludes (lowerStr n.label) "gpt" = false →
      strIncludes (lowerStr n.label) "email" = false →
      strIncludes (lowerStr n.label) "database" = false →
      strIncludes (lowerStr n.label) "db" = false →
      strIncludes (lowerStr n.label) "http" = false →
      strIncludes (lowerStr n.label) "api" = false →
      getN8nNodeType n = "n8n-nodes-base.code" ∧
      getNodeParameters n =
        [("functionCode", .s ("// " ++ lowerStr n.label ++ "\n// " ++
          n.description.getD "" ++
          "\nreturn items.map(item => \x7b\n  // Process item here\n  return item.json;\n\x7d);"))]) ∧
    keysOf (generateDeploymentInstructions rand today nowISO nodes edges) =
      ["workflow", "instructions"] ∧
    lookupKey (generateDeploymentInstructions rand today nowISO nodes edges)
      "warnings" = none := by
  refine ⟨?_, ?_, ?_, rfl, rfl⟩
  · intro n hn
    simp only [List.mem_cons, List.not_mem_nil, or_false, not_or] at hn
    obtain ⟨h1, h2, h3, h4⟩ := hn
    simp [getN8nNodeType, h1, h2, h3, h4]
  · intro n hn
    simp only [List.mem_cons, List.not_mem_nil, or_false, not_or] at hn
    obtain ⟨h1, h2, h3, h4⟩ := hn
    simp [getNodeParameters, h1, h2, h3, h4]
  · intro n ha k1 k2 k3 k4 k5 k6 k7 k8
    constructor
    · simp [getN8nNodeType, ha, k1, k2, k3, k4, k5, k6, k7, k8]
    · simp [getNodeParameters, getActionParameters, ha, k1, k2, k3, k4, k5, k6, k7, k8]

/-- Witness for `unrecognized_kind_falls_back` at the concrete
"monitoring" node and at a concrete keyword-free action node. -/
theorem unrecognized_kind_falls_back_witness :
    getN8nNodeType exC7node = "n8n-nodes-base.function" ∧
    getNodeParameters exC7node =
      [("functionCode", .s ("// " ++ exC7node.label ++ "\nreturn items;"))] ∧
    getN8nNodeType (⟨"a9", "Transform Records", "action", none, false, none,
      (0 : Int), 0⟩ : RFNode Int) = "n8n-nodes-base.code" := by
  have h := unrecognized_kind_falls_back (fun _ => "r") "2026-01-01"
    "2026-01-01T00:00:00.000Z" ([] : List (RFNode Int)) []
  refine ⟨h.1 exC7node (by decide), h.2.1 exC7node (by decide), ?_⟩
  exact (h.2.2.1 (⟨"a9", "Transform Records", "action", none, false, none,
    (0 : Int), 0⟩ : RFNode Int) rfl (by decide) (by decide) (by decide) (by decide)
    (by decide) (by decide) (by decide) (by decide)).1

/-! ## Claim C8: credential scan and test endpoints -/

theorem mem_of_mem_dedupFirstAux (seen l : List String) (a : String)
    (h : a ∈ dedupFirstAux seen l) : a ∈ l ∧ a ∉ seen := by
  induction l generalizing seen with
  | nil => simp [dedupFirstAux] at h
  | cons x xs ih =>
    by_cases hc : seen.contains x
    · rw [dedupFirstAux, if_pos hc] at h
      rcases ih seen h with ⟨h1, h2⟩
      exact ⟨List.mem_cons_of_mem x h1, h2⟩
    · rw [dedupFirstAux, if_neg hc] at h
      rcases List.mem_cons.mp h with h | h
      · subst h
        refine ⟨List.mem_cons_self a xs, fun hmem => hc ?_⟩
        exact List.contains_iff_exists_mem_beq.mpr ⟨a, hmem, by simp⟩
      · rcases ih (x :: seen) h with ⟨h1, h2⟩
        exact ⟨List.mem_cons_of_mem x h1, fun hmem => h2 (List.mem_cons_of_mem x hmem)⟩

theorem dedupFirstAux_nodup (seen l : List String) : (dedupFirstAux seen l).Nodup := by
  induction l generalizing seen with
  | nil => simp [dedupFirstAux]
  | cons x xs ih =>
    by_cases hc : seen.contains x
    · rw [dedupFirstAux, if_pos hc]; exact ih seen
    · rw [dedupFirstAux, if_neg hc]
      refine List.nodup_cons.mpr ⟨?_, ih (x :: seen)⟩
      intro hmem
      exact (mem_of_mem_dedupFirstAux _ _ _ hmem).2 (List.mem_cons_self x seen)

theorem mem_dedupFirstAux_of_mem (seen l : List String) (a : String)
    (h1 : a ∈ l) (h2 : a ∉ seen) : a ∈ dedupFirstAux seen l := by
  induction l generalizing seen with
  | nil => cases h1
  | cons x xs ih =>
    by_cases hc : seen.contains x
    · rw [dedupFirstAux, if_pos hc]
      rcases List.mem_cons.mp h1 with h | h
      · subst h
        exact absurd (by
          rcases List.contains_iff_exists_mem_beq.mp hc with ⟨b, hb, hab⟩
          rw [show a = b from by simpa using hab]
          exact hb) h2
      · exact ih seen h h2
    · rw [dedupFirstAux, if_neg hc]
      rcases List.mem_cons.mp h1 with h | h
      · subst h; exact List.mem_cons_self a _
      · by_cases hax : a = x
        · subst hax; exact List.mem_cons_self a _
        · exact List.mem_cons_of_mem x
            (ih (x :: seen) h (by simp [hax, h2]))

/-- Anything pushed by the credential scan of any node survives into the
folded credential list. -/
theorem mem_creds_foldl {α : Type} (nodes : List (RFNode α)) (acc : List String)
    (a : String)
    (h : a ∈ acc ∨ ∃ n ∈ nodes, a ∈ credPushes n) :
    a ∈ nodes.foldl (fun credentials node => credentials ++ credPushes node) acc := by
  induction nodes generalizing acc with
  | nil =>
    rcases h with h | ⟨n, hn, _⟩
    · exact h
    · cases hn
  | cons x xs ih =>
    rw [List.foldl_cons]
    refine ih (acc ++ credPushes x) ?_
    rcases h with h | ⟨n, hn, hcred⟩
    · exact Or.inl (List.mem_append_left _ h)
    · rcases List.mem_cons.mp hn with h | h
      · subst h; exact Or.inl (List.mem_append_right _ hcred)
      · exact Or.inr ⟨n, h, hcred⟩

/-- C8, counterexample: the claim says an example invocation endpoint is
synthesized for every trigger-type node, but `generateTestEndpoints` only
considers trigger nodes whose label contains "webhook": a manual trigger
node yields an empty endpoint list. -/
theorem manual_trigger_has_no_endpoint :
    ((⟨"m1", "Start", "trigger", none, false, none, 0, 0⟩ : RFNode Int) ∈
      [(⟨"m1", "Start", "trigger", none, false, none, 0, 0⟩ : RFNode Int)]) ∧
    (⟨"m1", "Start", "trigger", none, false, none, 0, 0⟩ : RFNode Int).nodeType =
      "trigger" ∧
    generateTestEndpoints "2026-01-01T00:00:00.000Z"
      [(⟨"m1", "Start", "trigger", none, false, none, 0, 0⟩ : RFNode Int)] = [] :=
  ⟨List.mem_cons_self _ _, rfl, rfl⟩

/-- C8, amended: the translator scans all node labels once and returns a
deduplicated credential list (for example, email credentials whenever some
node's label matches the email keyword), and it synthesizes an example
invocation endpoint for every *webhook* trigger node — trigger nodes whose
label contains "webhook" — rather than for every trigger node. -/
theorem credentials_dedup_and_webhook_endpoints {α : Type} (nowISO : String)
    (nodes : List (RFNode α)) :
    (getRequiredCredentials nodes).Nodup ∧
    ((∃ n ∈ nodes, strIncludes (lowerStr n.label) "email" = true) →
      "SMTP/Email Credentials" ∈ getRequiredCredentials nodes) ∧
    (∀ n ∈ nodes, n.nodeType = "trigger" → includesLC n.label "webhook" = true →
      JVal.obj [("method", .s "POST"),
        ("url", .s ("http://localhost:5678/webhook/nodex-" ++ n.id)),
        ("body", .obj [("test", .s "data"), ("timestamp", .s nowISO)]),
        ("description", .s ("Test endpoint for " ++ n.label))] ∈
          generateTestEndpoints nowISO nodes) := by
  refine ⟨dedupFirstAux_nodup [] _, ?_, ?_⟩
  · intro ⟨n, hn, hemail⟩
    refine mem_dedupFirstAux_of_mem [] _ _ ?_ (by simp)
    refine mem_creds_foldl nodes [] _ (Or.inr ⟨n, hn, ?_⟩)
    simp [credPushes, hemail]
  · intro n hn htrig hweb
    unfold generateTestEndpoints
    refine List.mem_map_of_mem _ (List.mem_filter.mpr ⟨hn, ?_⟩)
    simp [htrig, hweb]

/-- Witness for `credentials_dedup_and_webhook_endpoints` on a concrete
graph with an email action and a webhook trigger. -/
theorem credentials_dedup_and_webhook_endpoints_witness :
    "SMTP/Email Credentials" ∈ getRequiredCredentials
      [(⟨"w1", "Webhook Start", "trigger", none, false, none, 0, 0⟩ : RFNode Int),
       ⟨"a1", "Send Email", "action", none, false, none, 200, 0⟩] ∧
    JVal.obj [("method", .s "POST"),
      ("url", .s "http://localhost:5678/webhook/nodex-w1"),
      ("body", .obj [("test", .s "data"), ("timestamp", .s "t0")]),
      ("description", .s "Test endpoint for Webhook Start")] ∈
        generateTestEndpoints "t0"
          [(⟨"w1", "Webhook Start", "trigger", none, false, none, 0, 0⟩ : RFNode Int),
           ⟨"a1", "Send Email", "action", none, false, none, 200, 0⟩] := by
  have h := credentials_dedup_and_webhook_endpoints "t0"
    [(⟨"w1", "Webhook Start", "trigger", none, false, none, 0, 0⟩ : RFNode Int),
     ⟨"a1", "Send Email", "action", none, false, none, 200, 0⟩]
  refine ⟨h.2.1 ⟨⟨"a1", "Send Email", "action", none, false, none, 200, 0⟩,
    by decide, by decide⟩, ?_⟩
  have h2 := h.2.2 ⟨"w1", "Webhook Start", "trigger", none, false, none, 0, 0⟩
    (by decide) rfl (by decide)
  exact h2

/-! ## Claim C4: idempotence of the Invariant Enforcer.

The enforcer itself (the backend compliance-injection routine) is not
among the provided sources — only its data (compliance reasons, locked
nodes) and its callers appear — so the enforcer is modelled from the
specification's §4.2 algorithm. -/

/-- Modelled from the spec: a Graph-Model node of the missing backend
enforcer (`id`, `kind`, `label`, `locked`, `complianceReason`, and the
`complianceType` marker carried by injected compliance nodes). -/
structure GNode where
  id : String
  kind : String
  label : String
  locked : Bool
  complianceReason : String
  complianceType : String
deriving DecidableEq

/-- Modelled from the spec: a Graph-Model edge of the missing backend
enforcer. -/
structure GEdge where
  id : String
  source : String
  target : String
deriving DecidableEq

/-- Modelled from the spec: the Graph consumed and produced by the
missing backend enforcer. -/
structure WGraph where
  nodes : List GNode
  edges : List GEdge
deriving DecidableEq

/-- Modelled from the spec: the anchor modes of a RequiredStep. -/
inductive AnchorMode where
  | beforeLabelMatch
  | afterLabelMatch
  | atStart
  | atEnd
deriving DecidableEq

/-- Modelled from the spec: a RequiredStep policy datum
(`{label, complianceType, anchor: {mode, matchKeyword}, reason}`). -/
structure RequiredStep where
  label : String
  complianceType : String
  mode : AnchorMode
  matchKeyword : String
  reason : String
deriving DecidableEq

/-- Modelled from the spec: step 1's match test of the missing enforcer —
a node matches a RequiredStep by case-insensitive containment of the
step's `matchKeyword` in its `complianceType`, or by carrying exactly the
step's `complianceType` (a previously-injected node). -/
def matchesStep (n : GNode) (s : RequiredStep) : Bool :=
  includesLC n.complianceType s.matchKeyword || (n.complianceType == s.complianceType)

/-- Modelled from the spec: a RequiredStep is already satisfied when some
matching node is `locked = true`. -/
def stepSatisfied (g : WGraph) (s : RequiredStep) : Bool :=
  g.nodes.any (fun n => matchesStep n s && n.locked)

/-- Modelled from the spec: the default `validation`/`audit`/`notification`
kind mapping used when synthesizing a node from a `complianceType`. -/
def kindForComplianceType (ct : String) : String :=
  if includesLC ct "audit" then "audit"
  else if includesLC ct "notification" then "notification"
  else "validation"

/-- Modelled from the spec: step 2's synthesized node — `locked = true`,
`complianceReason = reason`, kind chosen from the `complianceType`. -/
def synthNode (s : RequiredStep) : GNode :=
  ⟨"required-" ++ s.complianceType, kindForComplianceType s.complianceType,
   s.label, true, s.reason, s.complianceType⟩

/-- Modelled from the spec: the current entry nodes (no incoming
edges). -/
def entryNodes (g : WGraph) : List GNode :=
  g.nodes.filter (fun n => !(g.edges.any (fun e => e.target == n.id)))

/-- Modelled from the spec: the current terminal nodes (no outgoing
edges). -/
def terminalNodes (g : WGraph) : List GNode :=
  g.nodes.filter (fun n => !(g.edges.any (fun e => e.source == n.id)))

/-- Modelled from the spec: step 4's splice for `beforeLabelMatch` —
every incoming edge `P → A` of the anchor is rewritten to `P → new`, and
`new → A` is added. -/
def spliceBefore (g : WGraph) (newNode : GNode) (anchorId : String) : WGraph :=
  let incoming := g.edges.filter (fun e => e.target == anchorId)
  let rest := g.edges.filter (fun e => !(e.target == anchorId))
  ⟨g.nodes ++ [newNode],
   rest ++ incoming.map (fun e => { e with target := newNode.id }) ++
     [⟨"edge-" ++ newNode.id ++ "-" ++ anchorId, newNode.id, anchorId⟩]⟩

/-- Modelled from the spec: step 4's symmetric splice for
`afterLabelMatch`. -/
def spliceAfter (g : WGraph) (newNode : GNode) (anchorId : String) : WGraph :=
  let outgoing := g.edges.filter (fun e => e.source == anchorId)
  let rest := g.edges.filter (fun e => !(e.source == anchorId))
  ⟨g.nodes ++ [newNode],
   rest ++ outgoing.map (fun e => { e with source := newNode.id }) ++
     [⟨"edge-" ++ anchorId ++ "-" ++ newNode.id, anchorId, newNode.id⟩]⟩

/-- Modelled from the spec: `atStart` insertion — the new node becomes a
predecessor of every current entry node. -/
def insertAtStart (g : WGraph) (newNode : GNode) : WGraph :=
  ⟨g.nodes ++ [newNode],
   g.edges ++ (entryNodes g).map (fun a =>
     ⟨"edge-" ++ newNode.id ++ "-" ++ a.id, newNode.id, a.id⟩)⟩

/-- Modelled from the spec: `atEnd` insertion — the new node becomes a
successor of every current terminal node. -/
def insertAtEnd (g : WGraph) (newNode : GNode) : WGraph :=
  ⟨g.nodes ++ [newNode],
   g.edges ++ (terminalNodes g).map (fun a =>
     ⟨"edge-" ++ a.id ++ "-" ++ newNode.id, a.id, newNode.id⟩)⟩

/-- Modelled from the spec: processing of one RequiredStep — skip when
satisfied, otherwise synthesize the node and splice it at the resolved
anchor (first label match, falling back to `atStart`/`atEnd`). -/
def applyStep (g : WGraph) (s : RequiredStep) : WGraph :=
  if stepSatisfied g s then g
  else
    let newNode := synthNode s
    match s.mode with
    | .beforeLabelMatch =>
      match g.nodes.find? (fun n => includesLC n.label s.matchKeyword) with
      | some anchor => spliceBefore g newNode anchor.id
      | none => insertAtStart g newNode
    | .afterLabelMatch =>
      match g.nodes.find? (fun n => includesLC n.label s.matchKeyword) with
      | some anchor => spliceAfter g newNode anchor.id
      | none => insertAtEnd g newNode
    | .atStart => insertAtStart g newNode
    | .atEnd => insertAtEnd g newNode

/-- Modelled from the spec: `enforce(graph, ruleSet)` — apply each
RequiredStep in the ruleset's declared order. -/
def enforce (g : WGraph) (ruleSet : List RequiredStep) : WGraph :=
  ruleSet.foldl applyStep g

/-- Processing a step never removes nodes. -/
theorem mem_nodes_applyStep (g : WGraph) (s : RequiredStep) (n : GNode)
    (h : n ∈ g.nodes) : n ∈ (applyStep g s).nodes := by
  unfold applyStep
  by_cases hs : stepSatisfied g s
  · simp [hs, h]
  · simp only [hs, Bool.false_eq_true, if_false]
    cases s.mode with
    | beforeLabelMatch =>
      cases hf : g.nodes.find? (fun n => includesLC n.label s.matchKeyword) with
      | some anchor => simp [spliceBefore, h]
      | none => simp [insertAtStart, h]
    | afterLabelMatch =>
      cases hf : g.nodes.find? (fun n => includesLC n.label s.matchKeyword) with
      | some anchor => simp [spliceAfter, h]
      | none => simp [insertAtEnd, h]
    | atStart => simp [insertAtStart, h]
    | atEnd => simp [insertAtEnd, h]

/-- When a step is not yet satisfied, its synthesized node is inserted. -/
theorem synthNode_mem_applyStep (g : WGraph) (s : RequiredStep)
    (hs : stepSatisfied g s = false) : synthNode s ∈ (applyStep g s).nodes := by
  unfold applyStep
  simp only [hs, Bool.false_eq_true, if_false]
  cases s.mode with
  | beforeLabelMatch =>
    cases hf : g.nodes.find? (fun n => includesLC n.label s.matchKeyword) with
    | some anchor => simp [spliceBefore]
    | none => simp [insertAtStart]
  | afterLabelMatch =>
    cases hf : g.nodes.find? (fun n => includesLC n.label s.matchKeyword) with
    | some anchor => simp [spliceAfter]
    | none => simp [insertAtEnd]
  | atStart => simp [insertAtStart]
  | atEnd => simp [insertAtEnd]

/-- Satisfaction of any step is monotone under step processing. -/
theorem stepSatisfied_mono (g : WGraph) (s t : RequiredStep)
    (h : stepSatisfied g t = true) : stepSatisfied (applyStep g s) t = true := by
  rcases List.any_eq_true.mp h with ⟨n, hn, hp⟩
  exact List.any_eq_true.mpr ⟨n, mem_nodes_applyStep g s n hn, hp⟩

/-- After processing a step, that step is satisfied. -/
theorem stepSatisfied_applyStep_self (g : WGraph) (s : RequiredStep) :
    stepSatisfied (applyStep g s) s = true := by
  cases hs : stepSatisfied g s with
  | true =>
    have : applyStep g s = g := by unfold applyStep; rw [hs]; rfl
    rw [this]; exact hs
  | false =>
    refine List.any_eq_true.mpr ⟨synthNode s, synthNode_mem_applyStep g s hs, ?_⟩
    simp [matchesStep, synthNode]

/-- Satisfaction of any step is monotone under a whole enforcement
pass. -/
theorem stepSatisfied_foldl_mono (ruleSet : List RequiredStep) (g : WGraph)
    (t : RequiredStep) (h : stepSatisfied g t = true) :
    stepSatisfied (ruleSet.foldl applyStep g) t = true := by
  induction ruleSet generalizing g with
  | nil => exact h
  | cons a tl ih => exact ih _ (stepSatisfied_mono g a t h)

/-- After one enforcement pass, every RequiredStep of the ruleset is
satisfied. -/
theorem enforce_satisfies_all (g : WGraph) (ruleSet : List RequiredStep) :
    ∀ s ∈ ruleSet, stepSatisfied (enforce g ruleSet) s = true := by
  unfold enforce
  induction ruleSet generalizing g with
  | nil => intro s hmem; cases hmem
  | cons a tl ih =>
    intro s hmem
    rcases List.mem_cons.mp hmem with h | h
    · subst h
      rw [List.foldl_cons]
      exact stepSatisfied_foldl_mono tl _ s (stepSatisfied_applyStep_self g s)
    · rw [List.foldl_cons]
      exact ih _ s h

/-- An enforcement pass over an already-satisfied graph is the
identity. -/
theorem enforce_eq_self_of_satisfied (g : WGraph) (ruleSet : List RequiredStep)
    (h : ∀ s ∈ ruleSet, stepSatisfied g s = true) : enforce g ruleSet = g := by
  unfold enforce
  induction ruleSet with
  | nil => rfl
  | cons a tl ih =>
    rw [List.foldl_cons]
    have ha : applyStep g a = g := by
      unfold applyStep; rw [h a (List.mem_cons_self a tl)]; rfl
    rw [ha]
    exact ih (fun s hs => h s (List.mem_cons_of_mem a hs))

/-- C4: the Invariant Enforcer is idempotent — a second enforcement pass
over the same ruleset returns the graph of the first pass unchanged
(exact structural equality, which is stronger than the claimed equality up
to id renaming of synthesized nodes): every step's match check finds the
locked node guaranteed by the first pass and skips insertion. -/
theorem enforce_idempotent (g : WGraph) (ruleSet : List RequiredStep) :
    enforce (enforce g ruleSet) ruleSet = enforce g ruleSet :=
  enforce_eq_self_of_satisfied (enforce g ruleSet) ruleSet
    (enforce_satisfies_all g ruleSet)

end Nodex
